import Mathlib

/-!
Verification of the NetInfra-KG graph persistence and query layer.

This file is a shallow embedding, in Lean 4, of the parts of the repository
that the checked claims are about:

* `src/kg/models.py` — the pydantic entity/relationship models, their
  required/optional fields, and the JSON serialization helpers
  (`set_properties` / `get_properties`, the Kubernetes label/annotation
  getters, the container environment-variable getters);
* `src/kg/database.py` — the `Neo4jKnowledgeGraph` store:
  `setup_constraints_and_indexes`, `create_entity`, `create_relationship`,
  `get_entity_neighbors`, `get_topology_path`, `search_entities`,
  `get_statistics`.

The Neo4j server itself is external to the repository; where an operation's
outcome depends on the store (the uniqueness constraint on `:Entity(id)`,
`MATCH`-before-`CREATE` semantics, `IF NOT EXISTS` schema statements), the
embedding models the documented behavior of the store that the Cypher
statements in `database.py` invoke, applied to an explicit graph state.
Likewise `json.dumps` / `json.loads` (Python standard library) and the
pydantic v2 field validation the models rely on are embedded as executable
Lean functions over explicit value types.

Machine integers do not occur (Python ints are unbounded); datetimes only
ever cross the store boundary as their `isoformat()` strings, so timestamps
are carried as opaque strings.
-/

namespace NetInfraKG

/-! ## Entity and relationship kind enumerations (src/kg/models.py) -/
/-- EntityType enum from `models.py`: the seven concrete entity kinds.
Constructor order follows the Python declaration order (which is the
iteration order of `for entity_type in EntityType`). -/
inductive EntityType where
  | NETWORK_SWITCH
  | NETWORK_PORT
  | VLAN
  | SERVER
  | VIRTUAL_MACHINE
  | KUBERNETES_POD
  | CONTAINER
  deriving DecidableEq, Repr

/-- The string value of each EntityType member, exactly as in `models.py`. -/
def EntityType.value : EntityType → String
  | .NETWORK_SWITCH => "NetworkSwitch"
  | .NETWORK_PORT => "NetworkPort"
  | .VLAN => "VLAN"
  | .SERVER => "Server"
  | .VIRTUAL_MACHINE => "VirtualMachine"
  | .KUBERNETES_POD => "KubernetesPod"
  | .CONTAINER => "Container"

/-- Iteration order of the Python `EntityType` enum. -/
def EntityType.all : List EntityType :=
  [.NETWORK_SWITCH, .NETWORK_PORT, .VLAN, .SERVER, .VIRTUAL_MACHINE,
   .KUBERNETES_POD, .CONTAINER]

/-- RelationshipType enum from `models.py`: the seven relationship kinds. -/
inductive RelationshipType where
  | CONNECTED_TO
  | BELONGS_TO
  | PART_OF
  | HOSTS
  | RUNS_ON
  | CONTAINS
  | DEPLOYED_ON
  deriving DecidableEq, Repr

/-- The string value of each RelationshipType member. -/
def RelationshipType.value : RelationshipType → String
  | .CONNECTED_TO => "CONNECTED_TO"
  | .BELONGS_TO => "BELONGS_TO"
  | .PART_OF => "PART_OF"
  | .HOSTS => "HOSTS"
  | .RUNS_ON => "RUNS_ON"
  | .CONTAINS => "CONTAINS"
  | .DEPLOYED_ON => "DEPLOYED_ON"

/-- Declaration order of the Python `RelationshipType` enum. -/
def RelationshipType.all : List RelationshipType :=
  [.CONNECTED_TO, .BELONGS_TO, .PART_OF, .HOSTS, .RUNS_ON, .CONTAINS,
   .DEPLOYED_ON]

/-! ## The graph store state

Neo4j node properties are primitive-typed (strings, integers, booleans,
string lists); `models.py` serializes every nested map to a JSON string
before it reaches the store, and `create_entity` / `create_relationship`
additionally drop any field that is still a `dict` at write time, so the
property maps that actually reach the store contain only the primitive
values below. -/
/-- A primitive Neo4j property value (post-flattening). -/
inductive PropVal where
  | str (s : String)
  | int (n : Int)
  | bool (b : Bool)
  | null
  | listStr (xs : List String)
  deriving DecidableEq, Repr

/-- A stored node: its label set and its flat property map (an association
list, as delivered by `SET e = $properties`). -/
structure Node where
  labels : List String
  props : List (String × PropVal)
  deriving DecidableEq, Repr

/-- A stored directed relationship.  Endpoints are recorded by the `id`
property the `MATCH` clauses of `create_relationship` matched on (ids are
unique under the schema constraints). -/
structure RelEdge where
  src_id : String
  tgt_id : String
  rel_type : String
  props : List (String × PropVal)
  deriving DecidableEq, Repr

/-- The state of the graph store. -/
structure DBState where
  nodes : List Node
  edges : List RelEdge
  deriving DecidableEq, Repr

/-- The nodes matched by `MATCH (e:Entity {id: $id})`: nodes carrying the
common `Entity` label whose `id` property equals the given string. -/
def matchEntityId (s : DBState) (i : String) : List Node :=
  s.nodes.filter fun n =>
    decide ("Entity" ∈ n.labels) &&
    decide (List.lookup "id" n.props = some (.str i))

/-! ## Entities as they cross the store boundary (models.py + database.py)

`create_entity` receives a pydantic `BaseEntity` (or any subclass), calls
`.dict()`, converts the two datetimes with `.isoformat()`, and drops any
remaining dict-valued field.  The pydantic validators have already turned
every nested map into a JSON string, so after these steps the dictionary
holds exactly the primitive base fields below plus the primitive
kind-specific fields contributed by the concrete subclass (`hostname`,
`vlan_id`, ...), which we carry as `extra_fields`. -/
structure BaseEntity where
  id : String
  name : String
  type : EntityType
  /-- `created_at.isoformat()` — the timestamp as it is stored. -/
  created_at : String
  /-- `updated_at.isoformat()`. -/
  updated_at : String
  properties_json : String
  neo4j_labels : List String
  /-- Primitive kind-specific fields of the concrete subclass, as produced
  by `.dict()` after validator flattening. -/
  extra_fields : List (String × PropVal)
  deriving DecidableEq, Repr

/-- The flat property dictionary `create_entity` sends as `$properties`. -/
def entityDict (e : BaseEntity) : List (String × PropVal) :=
  [("id", .str e.id),
   ("name", .str e.name),
   ("type", .str e.type.value),
   ("created_at", .str e.created_at),
   ("updated_at", .str e.updated_at),
   ("properties_json", .str e.properties_json),
   ("neo4j_labels", .listStr e.neo4j_labels)]
  ++ e.extra_fields

/-- `create_entity` (database.py:321).  Runs
`CREATE (e:Entity:{type}) SET e = $properties RETURN e`.
Under the `entity_id` uniqueness constraint (`:Entity(id)` unique,
declared in `setup_constraints_and_indexes`) the `CREATE` raises a
constraint-violation exception when a node labeled `Entity` with the same
`id` already exists; the `except` branch catches it and returns `False`
with the store unchanged.  Otherwise the node is created with the two
labels and the query returns one record, so the method returns `True`. -/
def create_entity (s : DBState) (e : BaseEntity) : Bool × DBState :=
  let newNode : Node := { labels := ["Entity", e.type.value], props := entityDict e }
  if (matchEntityId s e.id).isEmpty then
    (true, { s with nodes := s.nodes ++ [newNode] })
  else
    (false, s)

/-- The pydantic `Relationship` model as it reaches `create_relationship`:
`properties_json` has been produced by the model's validator and
`created_at` is already the `isoformat()` string. -/
structure Relationship where
  source_id : String
  target_id : String
  relationship_type : String
  properties_json : String
  created_at : String
  deriving DecidableEq, Repr

/-- `relationship.dict()` after datetime conversion. -/
def relDict (r : Relationship) : List (String × PropVal) :=
  [("source_id", .str r.source_id),
   ("target_id", .str r.target_id),
   ("relationship_type", .str r.relationship_type),
   ("properties_json", .str r.properties_json),
   ("created_at", .str r.created_at)]

/-- The edge properties: every `dict()` entry except the three structural
fields (database.py:435). -/
def relProperties (r : Relationship) : List (String × PropVal) :=
  (relDict r).filter fun kv =>
    decide (kv.1 ∉ ["source_id", "target_id", "relationship_type"])

/-- `create_relationship` (database.py:397).  Runs
`MATCH (source:Entity {id: $source_id}) MATCH (target:Entity {id: $target_id})
CREATE (source)-[r:{type}]->(target) SET r = $properties RETURN r`.
The query produces one row (and one edge) per source-match/target-match
pair; if either `MATCH` finds nothing, no row is produced, nothing is
created, and the method falls through to `return False`.
`result.single()` yields a record only when exactly one row exists
(zero rows give `None`; more than one raises, which the `except` catches
and turns into `False`), so the returned boolean is `rows = 1`. -/
def create_relationship (s : DBState) (r : Relationship) : Bool × DBState :=
  let srcs := matchEntityId s r.source_id
  let tgts := matchEntityId s r.target_id
  let newEdge : RelEdge :=
    { src_id := r.source_id, tgt_id := r.target_id,
      rel_type := r.relationship_type, props := relProperties r }
  let rows := srcs.length * tgts.length
  (decide (rows = 1), { s with edges := s.edges ++ List.replicate rows newEdge })

/-! ## Neighbor traversal (database.py:553) -/
/-- Python truthiness of an optional-list parameter, as tested by
`if relationship_types:` / `if entity_types:` — `None` and the empty list
are both falsy. -/
def truthyList {α : Type} : Option (List α) → Bool
  | some (_ :: _) => true
  | _ => false

/-- The rows of `MATCH (e:Entity {id: $entity_id})-[r]-(neighbor:Entity)
RETURN neighbor, type(r)`: one row per entity match, incident
relationship, and neighbor match (each relationship is traversed once,
direction-agnostically). -/
def neighborRows (s : DBState) (eid : String) : List (Node × String) :=
  (matchEntityId s eid).flatMap fun _ =>
    s.edges.flatMap fun ed =>
      (if ed.src_id = eid then
         (matchEntityId s ed.tgt_id).map (fun m => (m, ed.rel_type))
       else []) ++
      (if ed.tgt_id = eid ∧ ¬ ed.src_id = eid then
         (matchEntityId s ed.src_id).map (fun m => (m, ed.rel_type))
       else [])

/-- `get_entity_neighbors` (database.py:553).  When the
`relationship_types` parameter is truthy the query pattern becomes
`-[r:T1|T2|...]-`, i.e. only edges whose type is in the list are
traversed; otherwise (`None` or `[]`) the unfiltered query runs. -/
def get_entity_neighbors (s : DBState) (eid : String)
    (relationship_types : Option (List String)) : List (Node × String) :=
  if truthyList relationship_types then
    (neighborRows s eid).filter fun row =>
      (relationship_types.getD []).contains row.2
  else
    neighborRows s eid

/-! ## Free-text search (database.py:681) -/
/-- Substring test on character lists (the semantics of Cypher's string
`CONTAINS`). -/
def containsSub : List Char → List Char → Bool
  | needle, [] => needle.isEmpty
  | needle, c :: rest => needle.isPrefixOf (c :: rest) || containsSub needle rest

/-- Cypher `e.{key} CONTAINS $term`: true iff the property is present, is
a string, and contains the term as a substring (a null or missing
property makes the comparison null, which filters the row out). -/
def propContains (n : Node) (key : String) (term : String) : Bool :=
  match List.lookup key n.props with
  | some (.str v) => containsSub term.data v.data
  | _ => false

/-- `search_entities` (database.py:681).  With a truthy `entity_types`
list the query keeps nodes whose `name` contains the term and that carry
one of the requested kind labels; with `None` or an empty list it keeps
every `Entity` node whose `name` contains the term.  In both branches
only `e.name` is compared against the search term. -/
def search_entities (s : DBState) (term : String)
    (entity_types : Option (List EntityType)) : List Node :=
  if truthyList entity_types then
    s.nodes.filter fun n =>
      decide ("Entity" ∈ n.labels) && propContains n "name" term &&
      n.labels.any (fun l => (entity_types.getD []).any (fun t => t.value == l))
  else
    s.nodes.filter fun n =>
      decide ("Entity" ∈ n.labels) && propContains n "name" term

/-- The search operation claim C3 attributes to the spec, transcribed from
the spec's words: an unfiltered search matches the term as a substring
against `name`, `hostname`, and `ip_address`.  (This definition follows
the SPEC, for comparison with `search_entities`, which follows the code.) -/
def searchEntitiesSpecUnfiltered (s : DBState) (term : String) : List Node :=
  s.nodes.filter fun n =>
    decide ("Entity" ∈ n.labels) &&
    (propContains n "name" term || propContains n "hostname" term ||
     propContains n "ip_address" term)

/-! ## Statistics (database.py:749) -/
/-- A value in the dictionary returned by `get_statistics`: either a bare
count or a nested per-kind count map. -/
inductive StatVal where
  | nat (n : Nat)
  | map (kvs : List (String × Nat))
  deriving DecidableEq, Repr

/-- Count of `MATCH (e:{label}) RETURN count(e)`. -/
def countLabel (s : DBState) (label : String) : Nat :=
  (s.nodes.filter fun n => decide (label ∈ n.labels)).length

/-- `get_statistics` (database.py:749): total `Entity` node count, total
relationship count, and one count per `EntityType` label, assembled into
the returned dictionary in that order. -/
def get_statistics (s : DBState) : List (String × StatVal) :=
  [("total_entities", .nat (countLabel s "Entity")),
   ("total_relationships", .nat s.edges.length),
   ("entity_counts", .map (EntityType.all.map fun t =>
      (t.value, countLabel s t.value)))]

/-- Count of edges of one relationship kind. -/
def countEdgesOfKind (s : DBState) (k : String) : Nat :=
  (s.edges.filter fun ed => ed.rel_type == k).length

/-- Claim C4's fourth aggregate, transcribed from the claim's words: the
returned statistics contain, under some key, a map giving a count for
each relationship kind.  Since `List.lookup` can only return entries
present in the list, this is phrased as an executable check over the
returned dictionary. -/
def statsHaveRelationshipKindCounts (s : DBState) : Bool :=
  (get_statistics s).any fun kv =>
    match kv.2 with
    | .map m => RelationshipType.all.all fun rk =>
        List.lookup rk.value m = some (countEdgesOfKind s rk.value)
    | _ => false

/-! ## Shortest topology path (database.py:509) -/
/-- One node of the returned path: the Cypher projection
`{id: node.id, name: node.name, type: node.type}` (each component is null
when the property is absent). -/
structure PathNode where
  id : Option PropVal
  name : Option PropVal
  type : Option PropVal
  deriving DecidableEq, Repr

/-- The projection of the (unique, by the id constraint) node with the
given id. -/
def pathNodeOf (s : DBState) (i : String) : PathNode :=
  match (matchEntityId s i).head? with
  | some n => ⟨List.lookup "id" n.props, List.lookup "name" n.props,
      List.lookup "type" n.props⟩
  | none => ⟨none, none, none⟩

/-- Result of `get_topology_path`: the Python method returns either the
dictionary `{'nodes': ..., 'relationships': ...}` or the empty list `[]`
(modelled by `.empty`) when the query produced no row. -/
inductive TopologyPathResult where
  | found (nodes : List PathNode) (relationships : List String)
  | empty
  deriving DecidableEq, Repr

/-- Does some stored relationship connect `a` and `b` (in either
direction) with type `t`? -/
def edgeConnB (s : DBState) (a b t : String) : Bool :=
  s.edges.any fun ed =>
    ed.rel_type == t &&
    ((ed.src_id == a && ed.tgt_id == b) || (ed.src_id == b && ed.tgt_id == a))

/-- Is `steps` (a list of (relationship type, next node id) hops) a walk
from `a` to `b` through the stored relationships, ignoring direction —
the kind of connection `shortestPath((start)-[*]-(end))` traverses? -/
def isWalkB (s : DBState) : String → List (String × String) → String → Bool
  | a, [], b => a == b
  | a, (t, m) :: rest, b => edgeConnB s a m t && isWalkB s m rest b

/-- The undirected expansion step of the path search: all hops leaving
`cur`, each extending the walk taken so far. -/
def expandFrom (s : DBState) (cur : String) (steps : List (String × String)) :
    List (String × List (String × String)) :=
  s.edges.flatMap fun ed =>
    (if ed.src_id = cur then [(ed.tgt_id, steps ++ [(ed.rel_type, ed.tgt_id)])]
     else []) ++
    (if ed.tgt_id = cur then [(ed.src_id, steps ++ [(ed.rel_type, ed.src_id)])]
     else [])

/-- Breadth-first search over the store's relationships, modelling the
hop-count-shortest, direction-agnostic, any-type traversal performed by
`shortestPath((start:Entity {id:..})-[*]-(end:Entity {id:..}))`.
The queue holds (frontier id, walk from the start); fuel bounds the
number of dequeue steps. -/
def bfsAux (s : DBState) (tgt : String) :
    Nat → List String → List (String × List (String × String)) →
    Option (List (String × String))
  | 0, _, _ => none
  | _ + 1, _, [] => none
  | fuel + 1, visited, (cur, steps) :: rest =>
    if cur = tgt then some steps
    else if cur ∈ visited then bfsAux s tgt fuel visited rest
    else bfsAux s tgt fuel (cur :: visited) (rest ++ expandFrom s cur steps)

/-- Fuel sufficient for the search on the given store. -/
def bfsFuel (s : DBState) : Nat :=
  (s.nodes.length + s.edges.length + 1) * (2 * s.edges.length + 1) + 1

/-- `get_topology_path` (database.py:509).  The `MATCH` requires both
endpoint nodes to exist; when the pattern (including the `shortestPath`)
does not match, the query returns no row, `result.single()` yields
`None`, and the method returns `[]`.  On a match it returns the projected
node list and the list of traversed relationship types. -/
def get_topology_path (s : DBState) (start_id end_id : String) :
    TopologyPathResult :=
  if (matchEntityId s start_id).isEmpty || (matchEntityId s end_id).isEmpty then
    .empty
  else
    match bfsAux s end_id (bfsFuel s) [] [(start_id, [])] with
    | some steps =>
        .found (pathNodeOf s start_id :: steps.map fun st => pathNodeOf s st.2)
          (steps.map Prod.fst)
    | none => .empty

/-! ## JSON serialization (`json.dumps` / `json.loads`)

`models.py` stores every nested map as the JSON string produced by
`json.dumps` and reads it back with `json.loads`, catching
`json.JSONDecodeError`.  The embedding below defines the JSON value
domain the models traffic in (null, booleans, unbounded integers,
strings, arrays, and string-keyed objects — Python floats are outside the
fragment the claims exercise), a printer matching `json.dumps`'s default
output (item separator `", "`, key separator `": "`, mandatory string
escapes; the optional `ensure_ascii` escaping of printable characters is
identity-on-meaning and is not applied), and a recursive-descent reader
for this value fragment with `json.loads`'s concrete syntax: whitespace
(space, tab, newline, carriage return) around every token, integers
written as `-?(0|[1-9][0-9]*)` with no stray leading zeros, the standard
string escapes, and a strict-mode rejection of raw control characters
inside strings.  On texts denoting values outside the fragment (floats —
fractions, exponents, `NaN`, `Infinity` — and strings of astral
characters spelled as surrogate escape pairs) the reader returns `none`
even though `json.loads` succeeds; the claims therefore use the reader
only on printed fragment values and, through the full-grammar recognizer
`jsonWf` below, on texts where `json.loads` raises
`json.JSONDecodeError`.  CPython's recursion limit (a resource bound
that turns deeply nested texts into `RecursionError`) is not modeled. -/
/-- Decimal digits of a natural number, most significant first. -/
def natDigits (n : Nat) : List Char :=
  if _h : n < 10 then [Nat.digitChar n]
  else natDigits (n / 10) ++ [Nat.digitChar (n % 10)]
  termination_by n
  decreasing_by exact Nat.div_lt_self (by omega) (by omega)

/-- Read a decimal digit list back to the number it denotes. -/
def readNat (ds : List Char) : Nat :=
  ds.foldl (fun a c => a * 10 + (c.toNat - 48)) 0

/-- Lowercase hexadecimal digit (as `json.dumps` emits in `\uXXXX`). -/
def hexDigitChar (d : Nat) : Char :=
  if d < 10 then Nat.digitChar d else Char.ofNat (87 + d)

/-- Value of a hexadecimal digit character, if it is one. -/
def hexVal (c : Char) : Option Nat :=
  if '0' ≤ c ∧ c ≤ '9' then some (c.toNat - 48)
  else if 'a' ≤ c ∧ c ≤ 'f' then some (c.toNat - 87)
  else if 'A' ≤ c ∧ c ≤ 'F' then some (c.toNat - 55)
  else none

/-- JSON string escaping of one character, as `json.dumps` performs it:
the two mandatory escapes, the short control escapes, and `\u00XX` for
the remaining control characters.  Characters at or above U+0020 are
emitted verbatim. -/
def escChar (c : Char) : List Char :=
  if c = '"' then ['\\', '"']
  else if c = '\\' then ['\\', '\\']
  else if c = '\n' then ['\\', 'n']
  else if c = '\t' then ['\\', 't']
  else if c = '\r' then ['\\', 'r']
  else if c.toNat = 8 then ['\\', 'b']
  else if c.toNat = 12 then ['\\', 'f']
  else if c.toNat < 32 then
    "\\u00".data ++ [hexDigitChar (c.toNat / 16), hexDigitChar (c.toNat % 16)]
  else [c]

/-- Escape a whole string body. -/
def escapeChars : List Char → List Char
  | [] => []
  | c :: cs => escChar c ++ escapeChars cs

/-- Prepend a character to a string-body parse result. -/
def consResult (c : Char) :
    Option (List Char × List Char) → Option (List Char × List Char)
  | some (cs, r) => some (c :: cs, r)
  | none => none

/-- Parse a JSON string body (after the opening quote) up to and
including the closing quote, undoing the escapes `json.loads`
understands; a raw control character below U+0020 is rejected, as in
`json.loads`'s default strict mode. -/
def parseStrBody : List Char → Option (List Char × List Char)
  | [] => none
  | c :: rest =>
    if c = '"' then some ([], rest)
    else if c = '\\' then
      match rest with
      | [] => none
      | e :: rest1 =>
        if e = '"' then consResult '"' (parseStrBody rest1)
        else if e = '\\' then consResult '\\' (parseStrBody rest1)
        else if e = '/' then consResult '/' (parseStrBody rest1)
        else if e = 'n' then consResult '\n' (parseStrBody rest1)
        else if e = 't' then consResult '\t' (parseStrBody rest1)
        else if e = 'r' then consResult '\r' (parseStrBody rest1)
        else if e = 'b' then consResult (Char.ofNat 8) (parseStrBody rest1)
        else if e = 'f' then consResult (Char.ofNat 12) (parseStrBody rest1)
        else if e = 'u' then
          match rest1 with
          | h1 :: h2 :: h3 :: h4 :: rest2 =>
            match hexVal h1, hexVal h2, hexVal h3, hexVal h4 with
            | some a, some b, some x, some y =>
              consResult (Char.ofNat (((a * 16 + b) * 16 + x) * 16 + y))
                (parseStrBody rest2)
            | _, _, _, _ => none
          | _ => none
        else none
    else if c.toNat < 32 then none
    else consResult c (parseStrBody rest)

/-- JSON whitespace (as `json.loads` skips around tokens). -/
def isWsChar : Char → Bool
  | ' ' => true
  | '\t' => true
  | '\n' => true
  | '\r' => true
  | _ => false

/-- A JSON value of the fragment the models traffic in. -/
inductive JVal where
  | null
  | bool (b : Bool)
  | int (n : Int)
  | str (s : String)
  | arr (items : List JVal)
  | obj (entries : List (String × JVal))

mutual

/-- `json.dumps` with its default separators (`", "` between items,
`": "` after keys). -/
def printJVal : JVal → List Char
  | .null => "null".data
  | .bool true => "true".data
  | .bool false => "false".data
  | .int n => if n < 0 then '-' :: natDigits n.natAbs else natDigits n.natAbs
  | .str s => '"' :: (escapeChars s.data ++ ['"'])
  | .arr [] => ['[', ']']
  | .arr (v :: vs) => '[' :: (printJVal v ++ printArrTail vs)
  | .obj [] => ['{', '}']
  | .obj (kv :: kvs) => '{' :: (printEntry kv ++ printObjTail kvs)

/-- One `"key": value` member. -/
def printEntry : String × JVal → List Char
  | (k, v) => '"' :: (escapeChars k.data ++ ['"', ':', ' ']) ++ printJVal v

/-- The remaining items of an array, each preceded by `", "`. -/
def printArrTail : List JVal → List Char
  | [] => [']']
  | v :: vs => ',' :: ' ' :: (printJVal v ++ printArrTail vs)

/-- The remaining members of an object, each preceded by `", "`. -/
def printObjTail : List (String × JVal) → List Char
  | [] => ['}']
  | kv :: kvs => ',' :: ' ' :: (printEntry kv ++ printObjTail kvs)

end

mutual

/-- Node count of a JSON value (used to bound parser fuel). -/
def jsize : JVal → Nat
  | .null => 1
  | .bool _ => 1
  | .int _ => 1
  | .str _ => 1
  | .arr items => 1 + jsizeList items
  | .obj entries => 1 + jsizeEntries entries

def jsizeList : List JVal → Nat
  | [] => 0
  | v :: vs => jsize v + jsizeList vs

def jsizeEntries : List (String × JVal) → Nat
  | [] => 0
  | kv :: kvs => jsize kv.2 + jsizeEntries kvs

end

/-- Parse a `"key"` followed by (whitespace,) `:`, whitespace: the member
header of a JSON object. -/
def parseKeyColon (l : List Char) : Option (String × List Char) :=
  match l with
  | '"' :: r =>
    match parseStrBody r with
    | some (k, r1) =>
      match r1.dropWhile isWsChar with
      | ':' :: r2 => some (String.mk k, r2.dropWhile isWsChar)
      | _ => none
    | none => none
  | _ => none

/-- Drop an expected literal prefix from the input, or fail. -/
def dropLit : List Char → List Char → Option (List Char)
  | [], l => some l
  | p :: ps, c :: l => if c = p then dropLit ps l else none
  | _ :: _, [] => none

mutual

/-- Recursive-descent reader for the JSON fragment, as `json.loads`
accepts it (whitespace between tokens, strict integer syntax without
stray leading zeros, the standard escapes).  Fuel bounds the recursion
depth; `none` is a parse failure (`json.JSONDecodeError`). -/
def parseJVal : Nat → List Char → Option (JVal × List Char)
  | 0, _ => none
  | fuel + 1, input =>
    match input with
    | [] => none
    | c :: rest =>
      if c = 'n' then
        match dropLit ['u', 'l', 'l'] rest with
        | some r => some (.null, r)
        | none => none
      else if c = 't' then
        match dropLit ['r', 'u', 'e'] rest with
        | some r => some (.bool true, r)
        | none => none
      else if c = 'f' then
        match dropLit ['a', 'l', 's', 'e'] rest with
        | some r => some (.bool false, r)
        | none => none
      else if c = '"' then
        match parseStrBody rest with
        | some (cs, r) => some (.str (String.mk cs), r)
        | none => none
      else if c = '[' then
        if (rest.dropWhile isWsChar).head? = some ']' then
          some (.arr [], (rest.dropWhile isWsChar).tail)
        else
          match parseJVal fuel (rest.dropWhile isWsChar) with
          | some (v, r3) => parseArrTail fuel [v] r3
          | none => none
      else if c = '{' then
        if (rest.dropWhile isWsChar).head? = some '}' then
          some (.obj [], (rest.dropWhile isWsChar).tail)
        else
          match parseKeyColon (rest.dropWhile isWsChar) with
          | some (k, r3) =>
            match parseJVal fuel r3 with
            | some (v, r4) => parseObjTail fuel [(k, v)] r4
            | none => none
          | none => none
      else if c = '-' then
        if rest.head? = some '0' then some (.int 0, rest.tail)
        else
          let ds := rest.takeWhile Char.isDigit
          if ds.isEmpty then none
          else some (.int (-(readNat ds : Int)), rest.dropWhile Char.isDigit)
      else if c = '0' then some (.int 0, rest)
      else if c.isDigit then
        some (.int (readNat ((c :: rest).takeWhile Char.isDigit) : Int),
          (c :: rest).dropWhile Char.isDigit)
      else none

/-- Parse the items of an array after the first one. -/
def parseArrTail : Nat → List JVal → List Char → Option (JVal × List Char)
  | 0, _, _ => none
  | fuel + 1, acc, input =>
    match input.dropWhile isWsChar with
    | [] => none
    | c :: r =>
      if c = ']' then some (.arr acc, r)
      else if c = ',' then
        match parseJVal fuel (r.dropWhile isWsChar) with
        | some (v, r2) => parseArrTail fuel (acc ++ [v]) r2
        | none => none
      else none

/-- Parse the members of an object after the first one. -/
def parseObjTail : Nat → List (String × JVal) → List Char →
    Option (JVal × List Char)
  | 0, _, _ => none
  | fuel + 1, acc, input =>
    match input.dropWhile isWsChar with
    | [] => none
    | c :: r =>
      if c = '}' then some (.obj acc, r)
      else if c = ',' then
        match parseKeyColon (r.dropWhile isWsChar) with
        | some (k, r2) =>
          match parseJVal fuel r2 with
          | some (v, r3) => parseObjTail fuel (acc ++ [(k, v)]) r3
          | none => none
        | none => none
      else none

end

/-- No-leading-digit side condition for the text following a printed
number (a digit there would be absorbed by the number parse). -/
def noDigitHead (l : List Char) : Prop :=
  ∀ c, l.head? = some c → c.isDigit = false

/-- `json.dumps(value)`. -/
def json_dumps (v : JVal) : String := String.mk (printJVal v)

/-- `json.loads(s)` on the embedded fragment: `none` models
`json.JSONDecodeError`. -/
def json_loads (s : String) : Option JVal :=
  let l := s.data.dropWhile isWsChar
  match parseJVal (l.length + 1) l with
  | some (v, r) => if r.dropWhile isWsChar = [] then some v else none
  | none => none

/-- The leading integer part of a JSON number, after the optional minus:
`0` or a nonzero digit followed by digits; yields the unconsumed rest. -/
def wfIntCore : List Char → Option (List Char)
  | [] => Option.none
  | c :: r =>
    if c = '0' then some r
    else if c.isDigit then some (r.dropWhile Char.isDigit)
    else Option.none

/-- Consume a fraction (a dot followed by one or more digits) if fully
present; the fraction is optional, so without a digit after the dot the
number simply ends before the dot. -/
def wfFrac (l : List Char) : List Char :=
  match l with
  | '.' :: r =>
    if (r.takeWhile Char.isDigit).isEmpty then l else r.dropWhile Char.isDigit
  | _ => l

/-- Consume the exponent digits, backing out to `orig` when there are
none. -/
def wfExpDigits (orig r : List Char) : List Char :=
  if (r.takeWhile Char.isDigit).isEmpty then orig else r.dropWhile Char.isDigit

/-- Consume an exponent (`e` or `E`, an optional sign, one or more
digits) if fully present. -/
def wfExp (l : List Char) : List Char :=
  match l with
  | 'e' :: '+' :: r => wfExpDigits l r
  | 'e' :: '-' :: r => wfExpDigits l r
  | 'e' :: r => wfExpDigits l r
  | 'E' :: '+' :: r => wfExpDigits l r
  | 'E' :: '-' :: r => wfExpDigits l r
  | 'E' :: r => wfExpDigits l r
  | _ => l

/-- A whole JSON number after the optional minus: the integer part, then
a greedy optional fraction and a greedy optional exponent, as the
scanner's number regular expression matches it. -/
def wfNum (l : List Char) : Option (List Char) :=
  match wfIntCore l with
  | some r => some (wfExp (wfFrac r))
  | Option.none => Option.none

mutual

/-- Recognizer for the FULL value grammar `json.loads` accepts: beyond
the integer fragment the models use, it also consumes fractions,
exponents and the `NaN` / `Infinity` / `-Infinity` constants, so that
(in `jsonWf` below) its failure set is exactly where `json.loads`
raises `json.JSONDecodeError`.  It shares the string, key and
whitespace handling of the fragment reader and yields the unconsumed
rest. -/
def wfVal : Nat → List Char → Option (List Char)
  | 0, _ => Option.none
  | fuel + 1, input =>
    match input with
    | [] => Option.none
    | c :: rest =>
      if c = 'n' then dropLit ['u', 'l', 'l'] rest
      else if c = 't' then dropLit ['r', 'u', 'e'] rest
      else if c = 'f' then dropLit ['a', 'l', 's', 'e'] rest
      else if c = 'N' then dropLit ['a', 'N'] rest
      else if c = 'I' then dropLit ['n', 'f', 'i', 'n', 'i', 't', 'y'] rest
      else if c = '"' then
        match parseStrBody rest with
        | some (_, r) => some r
        | Option.none => Option.none
      else if c = '[' then
        if (rest.dropWhile isWsChar).head? = some ']' then
          some (rest.dropWhile isWsChar).tail
        else
          match wfVal fuel (rest.dropWhile isWsChar) with
          | some r3 => wfArrTail fuel r3
          | Option.none => Option.none
      else if c = '{' then
        if (rest.dropWhile isWsChar).head? = some '}' then
          some (rest.dropWhile isWsChar).tail
        else
          match parseKeyColon (rest.dropWhile isWsChar) with
          | some (_, r3) =>
            match wfVal fuel r3 with
            | some r4 => wfObjTail fuel r4
            | Option.none => Option.none
          | Option.none => Option.none
      else if c = '-' then
        if rest.head? = some 'I' then
          dropLit ['I', 'n', 'f', 'i', 'n', 'i', 't', 'y'] rest
        else wfNum rest
      else wfNum (c :: rest)

/-- Items of an array after the first. -/
def wfArrTail : Nat → List Char → Option (List Char)
  | 0, _ => Option.none
  | fuel + 1, input =>
    match input.dropWhile isWsChar with
    | [] => Option.none
    | c :: r =>
      if c = ']' then some r
      else if c = ',' then
        match wfVal fuel (r.dropWhile isWsChar) with
        | some r2 => wfArrTail fuel r2
        | Option.none => Option.none
      else Option.none

/-- Members of an object after the first. -/
def wfObjTail : Nat → List Char → Option (List Char)
  | 0, _ => Option.none
  | fuel + 1, input =>
    match input.dropWhile isWsChar with
    | [] => Option.none
    | c :: r =>
      if c = '}' then some r
      else if c = ',' then
        match parseKeyColon (r.dropWhile isWsChar) with
        | some (_, r2) =>
          match wfVal fuel r2 with
          | some r3 => wfObjTail fuel r3
          | Option.none => Option.none
        | Option.none => Option.none
      else Option.none

end

/-- Whether `s` is a text `json.loads` accepts (of any JSON value, not
just the stored fragment): `false` exactly where `json.loads` raises
`json.JSONDecodeError`. -/
def jsonWf (s : String) : Bool :=
  let l := s.data.dropWhile isWsChar
  match wfVal (l.length + 1) l with
  | some r => (r.dropWhile isWsChar).isEmpty
  | Option.none => false

/-- The text after a parsed number must not continue with a fraction or
exponent head (the full reader would consume further there). -/
def noNumExt (l : List Char) : Prop :=
  ∀ c, l.head? = some c → c ≠ '.' ∧ c ≠ 'e' ∧ c ≠ 'E'

/-! ## The serialized-map helpers of models.py

`set_properties` stores `json.dumps(properties)` in the `properties_json`
field; `get_properties` reads it back with `json.loads`, substituting the
empty dictionary when (and only when) `json.loads` raises
`json.JSONDecodeError`.  The pod and container models repeat the pattern
for their own serialized-map fields. -/
/-- `BaseEntity.set_properties` (models.py:189). -/
def set_properties (e : BaseEntity) (properties : List (String × JVal)) :
    BaseEntity :=
  { e with properties_json := json_dumps (.obj properties) }

/-- `BaseEntity.get_properties` (models.py:211): the parsed JSON value of
`properties_json`, whatever it is, or the empty dictionary when parsing
raises. -/
def get_properties (e : BaseEntity) : JVal :=
  match json_loads e.properties_json with
  | some v => v
  | none => .obj []

/-- `KubernetesPod` (models.py:509), restricted to the fields the claims
touch (its other attributes are primitive optionals that play no role in
the serialized-map contracts). -/
structure KubernetesPod where
  id : String
  name : String
  k8s_labels_json : String
  annotations_json : String

/-- `KubernetesPod.set_k8s_labels` (models.py:606). -/
def KubernetesPod.set_k8s_labels (p : KubernetesPod)
    (labels : List (String × JVal)) : KubernetesPod :=
  { p with k8s_labels_json := json_dumps (.obj labels) }

/-- `KubernetesPod.get_k8s_labels` (models.py:616). -/
def KubernetesPod.get_k8s_labels (p : KubernetesPod) : JVal :=
  match json_loads p.k8s_labels_json with
  | some v => v
  | none => .obj []

/-- `KubernetesPod.set_annotations` (models.py:628). -/
def KubernetesPod.set_annotations (p : KubernetesPod)
    (anns : List (String × JVal)) : KubernetesPod :=
  { p with annotations_json := json_dumps (.obj anns) }

/-- `KubernetesPod.get_annotations` (models.py:637). -/
def KubernetesPod.get_annotations (p : KubernetesPod) : JVal :=
  match json_loads p.annotations_json with
  | some v => v
  | none => .obj []

/-- `Container` (models.py:653), restricted to the fields the claims
touch. -/
structure Container where
  id : String
  name : String
  image : String
  environment_vars_json : String

/-- `Container.set_environment_vars` (models.py:749). -/
def Container.set_environment_vars (c : Container)
    (env_vars : List (String × JVal)) : Container :=
  { c with environment_vars_json := json_dumps (.obj env_vars) }

/-- `Container.get_environment_vars` (models.py:759). -/
def Container.get_environment_vars (c : Container) : JVal :=
  match json_loads c.environment_vars_json with
  | some v => v
  | none => .obj []

/-! ## Pydantic construction of concrete entities (models.py)

`models.py` declares its entities as pydantic models (`pydantic>=2.6.1`
per setup.py).  Constructing one runs pydantic v2's default ("lax")
validation per field: a missing required field is an error; a `str` field
accepts exactly strings; an `int` field accepts integers, coerces
booleans (`True` becomes 1, `False` becomes 0) and *coerces* strings
through pydantic-core's `str_as_int` cleaning (rejecting `None` and
strings that survive no cleaning).  `Optional[...]` fields default to
`None` when absent.  The embedding below reproduces that behavior for
the `VLAN` and `Server` models; fields with always-valid defaults that
the examined constructions never pass (`type`, the timestamps,
`properties_json`, `neo4j_labels`) are not re-validated, and errors
short-circuit at the first offending field (pydantic collects them, but
success/failure — what the claims are about — is the same).  Python
floats are not among the keyword-argument values the claims quantify
over. -/
/-- A Python value passed as a keyword argument. -/
inductive PyVal where
  | str (s : String)
  | int (n : Int)
  | bool (b : Bool)
  | null
  deriving DecidableEq, Repr

/-- Rust's `char::is_whitespace` (the Unicode `White_Space` property),
which pydantic-core's `str.trim()` strips from both ends before coercing
a string to an integer. -/
def isRustWs (c : Char) : Bool :=
  match c.toNat with
  | 0x9 | 0xA | 0xB | 0xC | 0xD | 0x20 | 0x85 | 0xA0 | 0x1680
  | 0x2000 | 0x2001 | 0x2002 | 0x2003 | 0x2004 | 0x2005 | 0x2006
  | 0x2007 | 0x2008 | 0x2009 | 0x200A | 0x2028 | 0x2029 | 0x202F
  | 0x205F | 0x3000 => true
  | _ => false

/-- Trim `isRustWs` whitespace from both ends. -/
def trimWs (l : List Char) : List Char :=
  ((l.dropWhile isRustWs).reverse.dropWhile isRustWs).reverse

/-- pydantic-core's first attempt, Rust's integer `from_str` on the
trimmed text: an optional sign followed by one or more ASCII digits
(leading zeros allowed here). -/
def directInt (l : List Char) : Option Int :=
  match l with
  | '+' :: ds =>
    if !ds.isEmpty && ds.all Char.isDigit then some ((readNat ds : Int))
    else Option.none
  | '-' :: ds =>
    if !ds.isEmpty && ds.all Char.isDigit then some (-(readNat ds : Int))
    else Option.none
  | ds =>
    if !ds.isEmpty && ds.all Char.isDigit then some ((readNat ds : Int))
    else Option.none

/-- Strip a trailing all-zero decimal fraction (a dot followed by one or
more zeros, split at the last dot); any other fraction is left in place
for the final parse to reject. -/
def fracStripZeros (l : List Char) : List Char :=
  let rev := l.reverse
  let fr := rev.takeWhile (fun c => c != '.')
  match rev.dropWhile (fun c => c != '.') with
  | '.' :: intRev =>
    if !fr.isEmpty && fr.all (fun c => c == '0') then intRev.reverse else l
  | _ => l

/-- Remove digit-grouping underscores; each must sit between two ASCII
digits, else the whole coercion fails.  The flag records whether the
previously kept character was a digit. -/
def stripUnderscores (pd : Bool) : List Char → Option (List Char)
  | [] => some []
  | '_' :: rest =>
    match rest with
    | [] => Option.none
    | d :: _ =>
      if pd && d.isDigit then stripUnderscores pd rest else Option.none
  | c :: rest => (stripUnderscores c.isDigit rest).map (fun l => c :: l)

/-- The final parse of the cleaned digit run: `0` alone, or a nonzero
digit followed by digits — pydantic-core's re-parse of a cleaned string
does not tolerate fresh leading zeros. -/
def strictDigits : List Char → Option Nat
  | ['0'] => some 0
  | c :: rest =>
    if c != '0' && c.isDigit && rest.all Char.isDigit then
      some (readNat (c :: rest))
    else Option.none
  | [] => Option.none

/-- After a leading `0`: skip further zeros and grouping underscores; the
candidate resumes at the first other character — a later digit, a dot
(kept together with the zero before it), the end of the text (keeping the
last skipped character), or an embedded minus sign (the pydantic-core
quirk that coerces `"0-8"` to -8), which may swallow one following
underscore.  The flag reports whether the embedded minus was crossed. -/
def zeroSkip (prev : Char) : List Char → Option (Bool × List Char)
  | [] => some (false, [prev])
  | '0' :: rest => zeroSkip '0' rest
  | '_' :: rest => zeroSkip '_' rest
  | '.' :: rest => some (false, prev :: '.' :: rest)
  | '-' :: '_' :: rest => some (true, rest)
  | '-' :: rest => some (true, rest)
  | c :: rest => if c.isDigit then some (false, c :: rest) else Option.none

/-- Run the cleaning passes over a candidate and finish strictly. -/
def finishIntStr (neg : Bool) (cand : List Char) : Option Int :=
  match stripUnderscores false (fracStripZeros cand) with
  | some ds =>
    match strictDigits ds with
    | some m => some (if neg then -(m : Int) else (m : Int))
    | Option.none => Option.none
  | Option.none => Option.none

/-- Clean and parse the part after the optional sign: a leading zero
enters the zero-skipping scan (whose embedded minus is rejected when an
explicit minus sign was already present), a nonzero digit starts an
ordinary candidate, anything else fails. -/
def parseIntBody (neg : Bool) (body : List Char) : Option Int :=
  match body with
  | '0' :: rest =>
    match zeroSkip '0' rest with
    | some (em, cand) =>
      if em && neg then Option.none else finishIntStr (neg || em) cand
    | Option.none => Option.none
  | c :: _ =>
    if c.isDigit && c != '0' then finishIntStr neg body else Option.none
  | [] => Option.none

/-- pydantic-core 2.27's lax string-to-integer coercion (`str_as_int`):
trim Unicode whitespace, accept a plainly signed digit string outright,
and otherwise clean the text — drop one leading sign, strip leading
zeros, grouping underscores and an all-zero decimal fraction — and
re-parse strictly.  The definition was checked against pydantic 2.10.6 /
pydantic-core 2.27.2 on an exhaustive corpus of short inputs and a large
random corpus; CPython's integer-conversion digit-count guard (a
configurable resource limit) is not modeled. -/
def parseIntStr (s : String) : Option Int :=
  let t := trimWs s.data
  match directInt t with
  | some v => some v
  | Option.none =>
    match t with
    | '+' :: body => parseIntBody false body
    | '-' :: body => parseIntBody true body
    | body => parseIntBody false body

/-- Validation of a required `str` field (pydantic v2 lax mode does not
coerce numbers or booleans to strings). -/
def validateStr : Option PyVal → Except String String
  | Option.none => .error "Field required"
  | some (.str s) => .ok s
  | some _ => .error "Input should be a valid string"

/-- Validation of a required `int` field: integers pass, booleans are
coerced (`True` to 1, `False` to 0), integer-formatted strings are
silently coerced, and `None` and uncoercible strings are rejected. -/
def validateInt : Option PyVal → Except String Int
  | Option.none => .error "Field required"
  | some (.int n) => .ok n
  | some (.bool b) => .ok (if b then 1 else 0)
  | some (.str s) =>
    match parseIntStr s with
    | some n => .ok n
    | Option.none => .error "Input should be a valid integer"
  | some .null => .error "Input should be a valid integer"

/-- Validation of an `Optional[str] = None` field. -/
def validateOptStr : Option PyVal → Except String (Option String)
  | Option.none => .ok Option.none
  | some .null => .ok Option.none
  | some (.str s) => .ok (some s)
  | some _ => .error "Input should be a valid string"

/-- Validation of an `Optional[int] = None` field (booleans coerce as for
the required case). -/
def validateOptInt : Option PyVal → Except String (Option Int)
  | Option.none => .ok Option.none
  | some .null => .ok Option.none
  | some (.int n) => .ok (some n)
  | some (.bool b) => .ok (some (if b then 1 else 0))
  | some (.str s) =>
    match parseIntStr s with
    | some n => .ok (some n)
    | Option.none => .error "Input should be a valid integer"

/-- The `VLAN` model's own fields (models.py:336): required integer
`vlan_id`, optional `subnet`, `gateway`, `description`. -/
structure VLAN where
  id : String
  name : String
  vlan_id : Int
  subnet : Option String
  gateway : Option String
  description : Option String
  deriving DecidableEq, Repr

/-- Constructing `VLAN(**kwargs)`: field-by-field pydantic validation. -/
def VLAN.construct (kwargs : List (String × PyVal)) : Except String VLAN := do
  let id ← validateStr (List.lookup "id" kwargs)
  let name ← validateStr (List.lookup "name" kwargs)
  let vlan_id ← validateInt (List.lookup "vlan_id" kwargs)
  let subnet ← validateOptStr (List.lookup "subnet" kwargs)
  let gateway ← validateOptStr (List.lookup "gateway" kwargs)
  let description ← validateOptStr (List.lookup "description" kwargs)
  return ⟨id, name, vlan_id, subnet, gateway, description⟩

/-- The `Server` model's own fields (models.py:380): required string
`hostname`, optional addresses, hardware numbers, `os`, `rack_location`. -/
structure Server where
  id : String
  name : String
  hostname : String
  ip_address : Option String
  mac_address : Option String
  cpu_cores : Option Int
  memory_gb : Option Int
  storage_gb : Option Int
  os : Option String
  rack_location : Option String
  deriving DecidableEq, Repr

/-- Constructing `Server(**kwargs)`. -/
def Server.construct (kwargs : List (String × PyVal)) : Except String Server := do
  let id ← validateStr (List.lookup "id" kwargs)
  let name ← validateStr (List.lookup "name" kwargs)
  let hostname ← validateStr (List.lookup "hostname" kwargs)
  let ip_address ← validateOptStr (List.lookup "ip_address" kwargs)
  let mac_address ← validateOptStr (List.lookup "mac_address" kwargs)
  let cpu_cores ← validateOptInt (List.lookup "cpu_cores" kwargs)
  let memory_gb ← validateOptInt (List.lookup "memory_gb" kwargs)
  let storage_gb ← validateOptInt (List.lookup "storage_gb" kwargs)
  let os ← validateOptStr (List.lookup "os" kwargs)
  let rack_location ← validateOptStr (List.lookup "rack_location" kwargs)
  return ⟨id, name, hostname, ip_address, mac_address, cpu_cores, memory_gb,
    storage_gb, os, rack_location⟩

/-! ## Schema setup (database.py:230)

`setup_constraints_and_indexes` runs eight `CREATE CONSTRAINT ... IF NOT
EXISTS` statements and seven `CREATE INDEX ... IF NOT EXISTS` statements,
wrapping each in `try/except` that demotes any store exception to a
printed warning.  The store's schema state is the set of existing
constraint and index names; an `IF NOT EXISTS` statement whose name
already exists is a no-op (were the modifier absent, the store would
report "already exists", which the `except` turns into a warning). -/
/-- One schema statement: its declared name, and whether it carries the
`IF NOT EXISTS` modifier (every statement in the source does). -/
structure SchemaStmt where
  name : String
  ifNotExists : Bool
  deriving DecidableEq, Repr

/-- The eight constraints of database.py:251, in order. -/
def constraintStmts : List SchemaStmt :=
  [⟨"entity_id", true⟩, ⟨"switch_id", true⟩, ⟨"port_id", true⟩,
   ⟨"vlan_id", true⟩, ⟨"server_id", true⟩, ⟨"vm_id", true⟩,
   ⟨"pod_id", true⟩, ⟨"container_id", true⟩]

/-- The seven indexes of database.py:278, in order. -/
def indexStmts : List SchemaStmt :=
  [⟨"entity_name", true⟩, ⟨"entity_type", true⟩, ⟨"vlan_vlan_id", true⟩,
   ⟨"server_hostname", true⟩, ⟨"vm_hostname", true⟩, ⟨"pod_namespace", true⟩,
   ⟨"container_image", true⟩]

/-- The store's schema state: the names of existing constraints and
indexes. -/
structure SchemaState where
  constraints : List String
  indexes : List String
  deriving DecidableEq, Repr

/-- Run one statement inside its `try/except`: an existing name with
`IF NOT EXISTS` is a store-side no-op; without the modifier the store
raises and the handler records a warning; a new name is created.  In
every case the loop continues — nothing escapes the handler. -/
def applyStmt (names : List String) (st : SchemaStmt) :
    List String × Option String :=
  if st.name ∈ names then
    if st.ifNotExists then (names, Option.none)
    else (names, some ("creation warning: " ++ st.name ++ " already exists"))
  else (names ++ [st.name], Option.none)

/-- Run a statement list, accumulating warnings. -/
def runStmts : List String → List SchemaStmt → List String × List String
  | names, [] => (names, [])
  | names, st :: rest =>
    let r1 := applyStmt names st
    let r2 := runStmts r1.1 rest
    (r2.1, r1.2.toList ++ r2.2)

/-- `setup_constraints_and_indexes` (database.py:230): run the constraint
statements, then the index statements; the method has no return value, so
its observable outcome is the schema state plus the printed warnings. -/
def setup_constraints_and_indexes (sc : SchemaState) :
    SchemaState × List String :=
  let rc := runStmts sc.constraints constraintStmts
  let ri := runStmts sc.indexes indexStmts
  (⟨rc.1, ri.1⟩, rc.2 ++ ri.2)

/-! ## Evaluation helpers and concrete instances used by the claims -/
/-- Did a pydantic construction succeed? -/
def constructionSucceeds {α : Type} : Except String α → Bool
  | .ok _ => true
  | .error _ => false

/-- Is a parsed value the empty JSON map? -/
def isEmptyMapJ : JVal → Bool
  | .obj [] => true
  | _ => false

/-- A stored `Server` node whose hostname and ip address contain text that
its name does not (used to separate the two readings of claim C3). -/
def cex3_server : Node :=
  { labels := ["Entity", "Server"],
    props := [("id", .str "srv-1"), ("name", .str "web-1"),
      ("type", .str "Server"), ("hostname", .str "prod-host-01"),
      ("ip_address", .str "10.0.0.5")] }

/-- A store holding only `cex3_server`. -/
def cex3_state : DBState := { nodes := [cex3_server], edges := [] }

/-- A store with one `HOSTS` relationship (used against claim C4). -/
def cex4_edge : RelEdge :=
  { src_id := "a", tgt_id := "b", rel_type := "HOSTS", props := [] }

def cex4_state : DBState := { nodes := [], edges := [cex4_edge] }

/-- Keyword arguments with an integer-formatted string for `vlan_id`
(used against claim C5). -/
def cex5_kwargs : List (String × PyVal) :=
  [("id", .str "vlan-10"), ("name", .str "VLAN-Production"),
   ("vlan_id", .str "20")]

/-- An entity whose stored properties are the JSON text `42` — valid JSON
but not a serialized map (used against claim C7). -/
def cex7_entity : BaseEntity :=
  { id := "e-1", name := "E1", type := .SERVER, created_at := "t",
    updated_at := "t", properties_json := "42", neo4j_labels := [],
    extra_fields := [] }

/-- Two disconnected entities (witness input for claim C8). -/
def cex8_node_a : Node :=
  { labels := ["Entity", "Server"],
    props := [("id", .str "a"), ("name", .str "A"), ("type", .str "Server")] }

def cex8_node_b : Node :=
  { labels := ["Entity", "Server"],
    props := [("id", .str "b"), ("name", .str "B"), ("type", .str "Server")] }

def cex8_state : DBState := { nodes := [cex8_node_a, cex8_node_b], edges := [] }

/-- Witness entities for claim C1: two distinct payloads sharing one id. -/
def cex1_e1 : BaseEntity :=
  { id := "sw-1", name := "Switch 1", type := .NETWORK_SWITCH,
    created_at := "2024-01-01T00:00:00", updated_at := "2024-01-01T00:00:00",
    properties_json := "\x7b\x7d", neo4j_labels := [], extra_fields := [] }

def cex1_e2 : BaseEntity :=
  { id := "sw-1", name := "Switch 1 (second write)", type := .NETWORK_SWITCH,
    created_at := "2024-01-02T00:00:00", updated_at := "2024-01-02T00:00:00",
    properties_json := "\x7b\x7d", neo4j_labels := [], extra_fields := [] }

/-- Witness relationship for claim C2: endpoints that match nothing in an
empty store. -/
def cex2_rel : Relationship :=
  { source_id := "server-001", target_id := "vm-001",
    relationship_type := "HOSTS", properties_json := "\x7b\x7d",
    created_at := "2024-01-01T00:00:00" }

/-! # Theorems -/

theorem digitChar_isDigit {d : Nat} (h : d < 10) :
    (Nat.digitChar d).isDigit = true := by
  interval_cases d <;> decide

theorem digitChar_toNat {d : Nat} (h : d < 10) :
    (Nat.digitChar d).toNat - 48 = d := by
  interval_cases d <;> decide

theorem natDigits_all_digit (n : Nat) : ∀ c ∈ natDigits n, c.isDigit = true := by
  induction n using Nat.strong_induction_on with
  | _ n ih =>
    rw [natDigits]
    split
    · intro c hc
      simp only [List.mem_singleton] at hc
      subst hc
      exact digitChar_isDigit (by omega)
    · intro c hc
      rcases List.mem_append.1 hc with h | h
      · exact ih (n / 10) (Nat.div_lt_self (by omega) (by omega)) c h
      · simp only [List.mem_singleton] at h
        subst h
        exact digitChar_isDigit (Nat.mod_lt _ (by omega))

theorem readNat_append_one (ds : List Char) (c : Char) :
    readNat (ds ++ [c]) = readNat ds * 10 + (c.toNat - 48) := by
  simp [readNat, List.foldl_append]

theorem readNat_natDigits (n : Nat) : readNat (natDigits n) = n := by
  induction n using Nat.strong_induction_on with
  | _ n ih =>
    rw [natDigits]
    split
    · next h =>
      simp [readNat, digitChar_toNat h]
    · next h =>
      rw [readNat_append_one, ih (n / 10) (Nat.div_lt_self (by omega) (by omega)),
        digitChar_toNat (Nat.mod_lt _ (by omega))]
      omega

theorem natDigits_head (n : Nat) :
    ∃ c t, natDigits n = c :: t ∧ c.isDigit = true := by
  induction n using Nat.strong_induction_on with
  | _ n ih =>
    rw [natDigits]
    split
    · next h => exact ⟨_, _, rfl, digitChar_isDigit (by omega)⟩
    · next h =>
      obtain ⟨c, t, heq, hd⟩ := ih (n / 10) (Nat.div_lt_self (by omega) (by omega))
      exact ⟨c, t ++ [Nat.digitChar (n % 10)], by rw [heq]; rfl, hd⟩

theorem natDigits_head_pos :
    ∀ n : Nat, 0 < n →
      ∃ c t, natDigits n = c :: t ∧ c.isDigit = true ∧ c ≠ '0' := by
  intro n
  induction n using Nat.strong_induction_on with
  | _ n ih =>
    intro hn
    rw [natDigits]
    split
    · next h =>
      refine ⟨Nat.digitChar n, [], rfl, digitChar_isDigit (by omega), ?_⟩
      interval_cases n <;> decide
    · next h =>
      obtain ⟨c, t, heq, hd, hz⟩ :=
        ih (n / 10) (Nat.div_lt_self (by omega) (by omega)) (by omega)
      exact ⟨c, t ++ [Nat.digitChar (n % 10)], by rw [heq]; rfl, hd, hz⟩

theorem takeWhile_append_of {p : Char → Bool} {l r : List Char}
    (hl : ∀ c ∈ l, p c = true)
    (hr : ∀ c, r.head? = some c → p c = false) :
    (l ++ r).takeWhile p = l ∧ (l ++ r).dropWhile p = r := by
  induction l with
  | nil =>
    cases r with
    | nil => exact ⟨rfl, rfl⟩
    | cons c t =>
      simp [List.takeWhile_cons, List.dropWhile_cons, hr c rfl]
  | cons c l ihl =>
    have hc : p c = true := hl c (List.mem_cons_self ..)
    have := ihl (fun x hx => hl x (List.mem_cons_of_mem _ hx))
    simp [List.takeWhile_cons, List.dropWhile_cons, hc, this.1, this.2]

theorem hexVal_hexDigitChar {d : Nat} (h : d < 16) :
    hexVal (hexDigitChar d) = some d := by
  interval_cases d <;> decide

theorem parseStrBody_escape (cs : List Char) (rest : List Char) :
    parseStrBody (escapeChars cs ++ ('"' :: rest)) = some (cs, rest) := by
  induction cs with
  | nil =>
    rw [show escapeChars [] ++ ('"' :: rest) = '"' :: rest from rfl,
      parseStrBody.eq_def]
    simp
  | cons c cs ih =>
    show parseStrBody ((escChar c ++ escapeChars cs) ++ ('"' :: rest)) = _
    rw [List.append_assoc]
    unfold escChar
    split_ifs with h1 h2 h3 h4 h5 h6 h7 h8
    · subst h1
      rw [show (['\\', '"'] : List Char) ++ (escapeChars cs ++ '"' :: rest) =
        '\\' :: '"' :: (escapeChars cs ++ '"' :: rest) from rfl, parseStrBody.eq_def]
      simp +decide [ih, consResult]
    · subst h2
      rw [show (['\\', '\\'] : List Char) ++ (escapeChars cs ++ '"' :: rest) =
        '\\' :: '\\' :: (escapeChars cs ++ '"' :: rest) from rfl, parseStrBody.eq_def]
      simp +decide [ih, consResult]
    · subst h3
      rw [show (['\\', 'n'] : List Char) ++ (escapeChars cs ++ '"' :: rest) =
        '\\' :: 'n' :: (escapeChars cs ++ '"' :: rest) from rfl, parseStrBody.eq_def]
      simp +decide [ih, consResult]
    · subst h4
      rw [show (['\\', 't'] : List Char) ++ (escapeChars cs ++ '"' :: rest) =
        '\\' :: 't' :: (escapeChars cs ++ '"' :: rest) from rfl, parseStrBody.eq_def]
      simp +decide [ih, consResult]
    · subst h5
      rw [show (['\\', 'r'] : List Char) ++ (escapeChars cs ++ '"' :: rest) =
        '\\' :: 'r' :: (escapeChars cs ++ '"' :: rest) from rfl, parseStrBody.eq_def]
      simp +decide [ih, consResult]
    · have hc : Char.ofNat 8 = c := by rw [← h6, Char.ofNat_toNat]
      rw [show (['\\', 'b'] : List Char) ++ (escapeChars cs ++ '"' :: rest) =
        '\\' :: 'b' :: (escapeChars cs ++ '"' :: rest) from rfl, parseStrBody.eq_def]
      simp +decide [ih, consResult]
      exact hc
    · have hc : Char.ofNat 12 = c := by rw [← h7, Char.ofNat_toNat]
      rw [show (['\\', 'f'] : List Char) ++ (escapeChars cs ++ '"' :: rest) =
        '\\' :: 'f' :: (escapeChars cs ++ '"' :: rest) from rfl, parseStrBody.eq_def]
      simp +decide [ih, consResult]
      exact hc
    · have e2 : hexVal (hexDigitChar (c.toNat / 16)) = some (c.toNat / 16) :=
        hexVal_hexDigitChar (by omega)
      have e3 : hexVal (hexDigitChar (c.toNat % 16)) = some (c.toNat % 16) :=
        hexVal_hexDigitChar (by omega)
      rw [show "\\u00".data ++ [hexDigitChar (c.toNat / 16),
          hexDigitChar (c.toNat % 16)] ++ (escapeChars cs ++ '"' :: rest) =
        '\\' :: 'u' :: '0' :: '0' :: hexDigitChar (c.toNat / 16) ::
          hexDigitChar (c.toNat % 16) :: (escapeChars cs ++ '"' :: rest) from rfl,
        parseStrBody.eq_def]
      simp +decide only [if_true, if_false, reduceIte]
      rw [show hexVal '0' = some 0 from by decide, e2, e3]
      simp [consResult, ih]
      rw [show c.toNat / 16 * 16 + c.toNat % 16 = c.toNat from by omega,
        Char.ofNat_toNat]
    · rw [show ([c] : List Char) ++ (escapeChars cs ++ '"' :: rest) =
        c :: (escapeChars cs ++ '"' :: rest) from rfl, parseStrBody.eq_def]
      simp [h1, h2, ih, consResult]
      omega

theorem jsize_pos (v : JVal) : 1 ≤ jsize v := by
  cases v <;> simp [jsize]

theorem jsize_le_jsizeList {x : JVal} {vs : List JVal} (h : x ∈ vs) :
    jsize x ≤ jsizeList vs := by
  induction vs with
  | nil => cases h
  | cons y ys ih =>
    rcases List.mem_cons.1 h with rfl | h
    · simp [jsizeList]
    · have := ih h
      simp only [jsizeList]
      omega

theorem jsize_le_jsizeEntries {kv : String × JVal} {es : List (String × JVal)}
    (h : kv ∈ es) : jsize kv.2 ≤ jsizeEntries es := by
  induction es with
  | nil => cases h
  | cons e es ih =>
    rcases List.mem_cons.1 h with rfl | h
    · simp [jsizeEntries]
    · have := ih h
      simp only [jsizeEntries]
      omega

theorem isDigit_facts {c : Char} (h : c.isDigit = true) :
    c ≠ 'n' ∧ c ≠ 't' ∧ c ≠ 'f' ∧ c ≠ '"' ∧ c ≠ '[' ∧ c ≠ '{' ∧ c ≠ '-' ∧
    isWsChar c = false ∧ c ≠ ']' ∧ c ≠ '}' ∧ c ≠ ',' := by
  have hne : ∀ d : Char, d.isDigit = false → c ≠ d := by
    intro d hd hc
    subst hc
    rw [h] at hd
    cases hd
  refine ⟨hne _ (by decide), hne _ (by decide), hne _ (by decide),
    hne _ (by decide), hne _ (by decide), hne _ (by decide), hne _ (by decide),
    ?_, hne _ (by decide), hne _ (by decide), hne _ (by decide)⟩
  have w1 : c ≠ ' ' := hne _ (by decide)
  have w2 : c ≠ '\t' := hne _ (by decide)
  have w3 : c ≠ '\n' := hne _ (by decide)
  have w4 : c ≠ '\r' := hne _ (by decide)
  simp [isWsChar, w1, w2, w3, w4]

theorem noDigitHead_nil : noDigitHead [] := by
  intro c hc
  cases hc

theorem noDigitHead_cons {c : Char} (t : List Char) (h : c.isDigit = false) :
    noDigitHead (c :: t) := by
  intro x hx
  cases hx
  exact h

theorem printArrTail_head (vs : List JVal) :
    ∃ c t, printArrTail vs = c :: t ∧ (c = ']' ∨ c = ',') := by
  cases vs with
  | nil => exact ⟨']', [], rfl, Or.inl rfl⟩
  | cons v vs => exact ⟨',', _, rfl, Or.inr rfl⟩

theorem printObjTail_head (es : List (String × JVal)) :
    ∃ c t, printObjTail es = c :: t ∧ (c = '}' ∨ c = ',') := by
  cases es with
  | nil => exact ⟨'}', [], rfl, Or.inl rfl⟩
  | cons kv kvs => exact ⟨',', _, rfl, Or.inr rfl⟩

theorem noDigitHead_printArrTail (vs : List JVal) (r : List Char) :
    noDigitHead (printArrTail vs ++ r) := by
  obtain ⟨c, t, he, hc⟩ := printArrTail_head vs
  rw [he]
  rcases hc with rfl | rfl <;> exact noDigitHead_cons _ (by decide)

theorem noDigitHead_printObjTail (es : List (String × JVal)) (r : List Char) :
    noDigitHead (printObjTail es ++ r) := by
  obtain ⟨c, t, he, hc⟩ := printObjTail_head es
  rw [he]
  rcases hc with rfl | rfl <;> exact noDigitHead_cons _ (by decide)

theorem printJVal_head (v : JVal) :
    ∃ c t, printJVal v = c :: t ∧ isWsChar c = false ∧ c ≠ ']' ∧ c ≠ '}' := by
  cases v with
  | null => exact ⟨'n', _, rfl, by decide, by decide, by decide⟩
  | bool b =>
    cases b
    · exact ⟨'f', _, rfl, by decide, by decide, by decide⟩
    · exact ⟨'t', _, rfl, by decide, by decide, by decide⟩
  | int n =>
    by_cases hn : n < 0
    · exact ⟨'-', natDigits n.natAbs, by simp [printJVal, hn], by decide,
        by decide, by decide⟩
    · obtain ⟨c, t, he, hd⟩ := natDigits_head n.natAbs
      obtain ⟨_, _, _, _, _, _, _, hws, h1, h2, _⟩ := isDigit_facts hd
      exact ⟨c, t, by simp [printJVal, hn, he], hws, h1, h2⟩
  | str s => exact ⟨'"', _, rfl, by decide, by decide, by decide⟩
  | arr items =>
    cases items with
    | nil => exact ⟨'[', _, rfl, by decide, by decide, by decide⟩
    | cons v vs => exact ⟨'[', _, rfl, by decide, by decide, by decide⟩
  | obj entries =>
    cases entries with
    | nil => exact ⟨'{', _, rfl, by decide, by decide, by decide⟩
    | cons kv kvs => exact ⟨'{', _, rfl, by decide, by decide, by decide⟩

theorem skipWs_print (v : JVal) (r : List Char) :
    (printJVal v ++ r).dropWhile isWsChar = printJVal v ++ r := by
  obtain ⟨c, t, he, hws, _, _⟩ := printJVal_head v
  rw [he, List.cons_append, List.dropWhile_cons, hws]
  simp

theorem arrTail_len (vs : List JVal)
    (h : ∀ x ∈ vs, jsize x ≤ (printJVal x).length) :
    jsizeList vs + 1 ≤ (printArrTail vs).length := by
  induction vs with
  | nil => simp [printArrTail, jsizeList]
  | cons v vs ih =>
    have hv := h v (List.mem_cons_self ..)
    have ht := ih (fun x hx => h x (List.mem_cons_of_mem _ hx))
    simp only [printArrTail, jsizeList, List.length_cons, List.length_append]
    omega

theorem objTail_len (es : List (String × JVal))
    (h : ∀ kv ∈ es, jsize kv.2 ≤ (printJVal kv.2).length) :
    jsizeEntries es + 1 ≤ (printObjTail es).length := by
  induction es with
  | nil => simp [printObjTail, jsizeEntries]
  | cons kv kvs ih =>
    have hv := h kv (List.mem_cons_self ..)
    have ht := ih (fun x hx => h x (List.mem_cons_of_mem _ hx))
    obtain ⟨k, v⟩ := kv
    simp only [printObjTail, printEntry, jsizeEntries, List.length_cons,
      List.length_append] at hv ht ⊢
    omega

theorem jsize_le_length_aux :
    ∀ n v, jsize v ≤ n → jsize v ≤ (printJVal v).length := by
  intro n
  induction n using Nat.strong_induction_on with
  | _ n ih =>
    intro v hv
    cases v with
    | null => simp [printJVal, jsize]
    | bool b => cases b <;> simp [printJVal, jsize]
    | int m =>
      obtain ⟨c, t, he, _⟩ := natDigits_head m.natAbs
      by_cases hm : m < 0 <;> simp [printJVal, jsize, hm, he]
    | str s => simp [printJVal, jsize]
    | arr items =>
      have hsub : ∀ x ∈ items, jsize x ≤ (printJVal x).length := by
        intro x hx
        have h1 : jsize x ≤ jsizeList items := jsize_le_jsizeList hx
        have h2 : jsize (.arr items) = 1 + jsizeList items := rfl
        exact ih (jsize x) (by omega) x le_rfl
      cases items with
      | nil => simp [printJVal, jsize, jsizeList]
      | cons x xs =>
        have hx := hsub x (List.mem_cons_self ..)
        have ht := arrTail_len xs (fun y hy => hsub y (List.mem_cons_of_mem _ hy))
        simp only [printJVal, jsize, jsizeList, List.length_cons,
          List.length_append]
        omega
    | obj entries =>
      have hsub : ∀ kv ∈ entries, jsize kv.2 ≤ (printJVal kv.2).length := by
        intro kv hkv
        have h1 : jsize kv.2 ≤ jsizeEntries entries := jsize_le_jsizeEntries hkv
        have h2 : jsize (.obj entries) = 1 + jsizeEntries entries := rfl
        exact ih (jsize kv.2) (by omega) kv.2 le_rfl
      cases entries with
      | nil => simp [printJVal, jsize, jsizeEntries]
      | cons kv kvs =>
        have hx := hsub kv (List.mem_cons_self ..)
        have ht := objTail_len kvs (fun y hy => hsub y (List.mem_cons_of_mem _ hy))
        obtain ⟨k, v⟩ := kv
        simp only [printJVal, printEntry, jsize, jsizeEntries, List.length_cons,
          List.length_append] at hx ht ⊢
        omega

theorem jsize_le_length (v : JVal) : jsize v ≤ (printJVal v).length :=
  jsize_le_length_aux (jsize v) v le_rfl

theorem parseKeyColon_print (k : String) (tail : List Char) :
    parseKeyColon (('"' :: (escapeChars k.data ++ ['"', ':', ' '])) ++ tail) =
      some (k, tail.dropWhile isWsChar) := by
  have harr : (escapeChars k.data ++ ['"', ':', ' ']) ++ tail =
      escapeChars k.data ++ ('"' :: (':' :: ' ' :: tail)) := by
    simp
  rw [List.cons_append, parseKeyColon, harr, parseStrBody_escape]
  simp +decide [List.dropWhile_cons]

/-- Round trip of the JSON printer and reader, for every fuel bound at
least the value's node count: reading the printed text yields the value
back and consumes exactly the printed characters, provided the following
text does not start with a digit (which a printed number would absorb).
The two tail conjuncts state the same for the item/member loops. -/
theorem parse_print_aux (n : Nat) :
    (∀ v rest, jsize v ≤ n → noDigitHead rest →
      parseJVal n (printJVal v ++ rest) = some (v, rest)) ∧
    (∀ vs acc rest, jsizeList vs + 1 ≤ n →
      parseArrTail n acc (printArrTail vs ++ rest) = some (.arr (acc ++ vs), rest)) ∧
    (∀ es acc rest, jsizeEntries es + 1 ≤ n →
      parseObjTail n acc (printObjTail es ++ rest) = some (.obj (acc ++ es), rest)) := by
  induction n using Nat.strong_induction_on with
  | _ n ih =>
    match n with
    | 0 =>
      refine ⟨fun v rest hsz _ => ?_, fun vs acc rest hsz => ?_,
        fun es acc rest hsz => ?_⟩
      · exact absurd hsz (by have := jsize_pos v; omega)
      · exact absurd hsz (by omega)
      · exact absurd hsz (by omega)
    | m + 1 =>
      have IH1 := fun (k : Nat) (hk : k < m + 1) => (ih k hk).1
      have IH2 := fun (k : Nat) (hk : k < m + 1) => (ih k hk).2.1
      have IH3 := fun (k : Nat) (hk : k < m + 1) => (ih k hk).2.2
      refine ⟨fun v rest hsz hnd => ?_, fun vs acc rest hsz => ?_,
        fun es acc rest hsz => ?_⟩
      · -- parseJVal round trip
        cases v with
        | null =>
          rw [show printJVal .null ++ rest = 'n' :: 'u' :: 'l' :: 'l' :: rest
            from rfl, parseJVal.eq_def]
          simp +decide [dropLit]
        | bool b =>
          cases b
          · rw [show printJVal (.bool false) ++ rest =
              'f' :: 'a' :: 'l' :: 's' :: 'e' :: rest from rfl, parseJVal.eq_def]
            simp +decide [dropLit]
          · rw [show printJVal (.bool true) ++ rest =
              't' :: 'r' :: 'u' :: 'e' :: rest from rfl, parseJVal.eq_def]
            simp +decide [dropLit]
        | int k =>
          by_cases hk0 : k = 0
          · subst hk0
            have hp0 : printJVal (.int 0) ++ rest = '0' :: rest := by
              rw [show printJVal (.int 0) = ['0'] from by
                simp +decide [printJVal, natDigits]]
              rfl
            rw [hp0, parseJVal.eq_def]
            simp +decide
          · have hta := takeWhile_append_of (p := Char.isDigit)
              (natDigits_all_digit k.natAbs) hnd
            obtain ⟨c, t, he, hd, hz⟩ := natDigits_head_pos k.natAbs (by omega)
            obtain ⟨h1, h2, h3, h4, h5, h6, h7, _, _, _, _⟩ := isDigit_facts hd
            rw [he, List.cons_append] at hta
            by_cases hk : k < 0
            · have hval : (-(readNat (c :: t) : Int)) = k := by
                rw [← he, readNat_natDigits]
                omega
              rw [show printJVal (.int k) ++ rest =
                '-' :: (natDigits k.natAbs ++ rest) from by simp [printJVal, hk],
                he, List.cons_append, parseJVal.eq_def]
              simp +decide only [List.head?_cons, Option.some.injEq, hz,
                if_true, if_false, reduceIte]
              rw [show (c :: (t ++ rest)).takeWhile Char.isDigit = c :: t from hta.1,
                show (c :: (t ++ rest)).dropWhile Char.isDigit = rest from hta.2]
              simp [hval]
            · have hpos : ((readNat (c :: t) : Int)) = k := by
                rw [← he, readNat_natDigits]
                omega
              rw [show printJVal (.int k) ++ rest = natDigits k.natAbs ++ rest
                from by simp [printJVal, hk], he, List.cons_append,
                parseJVal.eq_def]
              simp only [h1, h2, h3, h4, h5, h6, h7, hz, hd, if_false, if_true,
                reduceIte]
              rw [show (c :: (t ++ rest)).takeWhile Char.isDigit = c :: t from hta.1,
                show (c :: (t ++ rest)).dropWhile Char.isDigit = rest from hta.2,
                hpos]
        | str s =>
          rw [show printJVal (.str s) ++ rest =
            '"' :: (escapeChars s.data ++ ('"' :: rest)) from by
              simp [printJVal], parseJVal.eq_def]
          simp +decide only [if_true, if_false, reduceIte]
          rw [parseStrBody_escape]
        | arr items =>
          cases items with
          | nil =>
            rw [show printJVal (.arr []) ++ rest = '[' :: ']' :: rest from rfl,
              parseJVal.eq_def]
            simp +decide [List.dropWhile_cons]
          | cons x xs =>
            have hszx : jsize x ≤ m := by
              have h1 : jsize (.arr (x :: xs)) =
                  1 + (jsize x + jsizeList xs) := rfl
              omega
            have hsxs : jsizeList xs + 1 ≤ m := by
              have h1 : jsize (.arr (x :: xs)) =
                  1 + (jsize x + jsizeList xs) := rfl
              have h2 := jsize_pos x
              omega
            obtain ⟨c, t, hpe, hws, hbr, hbc⟩ := printJVal_head x
            have hx := IH1 m (by omega) x (printArrTail xs ++ rest) hszx
              (noDigitHead_printArrTail xs rest)
            have htl := IH2 m (by omega) xs [x] rest hsxs
            rw [show printJVal (.arr (x :: xs)) ++ rest =
              '[' :: (printJVal x ++ (printArrTail xs ++ rest)) from by
                simp [printJVal], parseJVal.eq_def]
            rw [hpe, List.cons_append] at hx ⊢
            simp +decide only [List.dropWhile_cons, hws, Bool.false_eq_true,
              List.head?_cons, Option.some.injEq, hbr, if_false, reduceIte]
            rw [hx]
            simp [htl]
        | obj entries =>
          cases entries with
          | nil =>
            rw [show printJVal (.obj []) ++ rest = '{' :: '}' :: rest from rfl,
              parseJVal.eq_def]
            simp +decide [List.dropWhile_cons]
          | cons kv kvs =>
            obtain ⟨k, v⟩ := kv
            have hszv : jsize v ≤ m := by
              have h1 : jsize (.obj ((k, v) :: kvs)) =
                  1 + (jsize v + jsizeEntries kvs) := rfl
              omega
            have hsks : jsizeEntries kvs + 1 ≤ m := by
              have h1 : jsize (.obj ((k, v) :: kvs)) =
                  1 + (jsize v + jsizeEntries kvs) := rfl
              have h2 := jsize_pos v
              omega
            have hkey := parseKeyColon_print k
              (printJVal v ++ (printObjTail kvs ++ rest))
            rw [skipWs_print] at hkey
            have hv := IH1 m (by omega) v (printObjTail kvs ++ rest) hszv
              (noDigitHead_printObjTail kvs rest)
            have htl := IH3 m (by omega) kvs [(k, v)] rest hsks
            rw [show printJVal (.obj ((k, v) :: kvs)) ++ rest =
              '{' :: (('"' :: (escapeChars k.data ++ ['"', ':', ' '])) ++
                (printJVal v ++ (printObjTail kvs ++ rest))) from by
                  simp [printJVal, printEntry], parseJVal.eq_def]
            simp +decide only [List.cons_append, List.dropWhile_cons,
              List.head?_cons, Option.some.injEq, reduceIte]
            rw [show ('"' :: ((escapeChars k.data ++ ['"', ':', ' ']) ++
                (printJVal v ++ (printObjTail kvs ++ rest)))) =
              (('"' :: (escapeChars k.data ++ ['"', ':', ' '])) ++
                (printJVal v ++ (printObjTail kvs ++ rest))) from rfl, hkey]
            simp [hv, htl]
      · -- parseArrTail round trip
        cases vs with
        | nil =>
          rw [show printArrTail [] ++ rest = ']' :: rest from rfl,
            parseArrTail.eq_def]
          simp +decide [List.dropWhile_cons]
        | cons v vs =>
          have hszv : jsize v ≤ m := by
            have h1 : jsizeList (v :: vs) = jsize v + jsizeList vs := rfl
            omega
          have hsvs : jsizeList vs + 1 ≤ m := by
            have h1 : jsizeList (v :: vs) = jsize v + jsizeList vs := rfl
            have h2 := jsize_pos v
            omega
          have hv := IH1 m (by omega) v (printArrTail vs ++ rest) hszv
            (noDigitHead_printArrTail vs rest)
          have htl := IH2 m (by omega) vs (acc ++ [v]) rest hsvs
          rw [show printArrTail (v :: vs) ++ rest =
            ',' :: ' ' :: (printJVal v ++ (printArrTail vs ++ rest)) from by
              simp [printArrTail], parseArrTail.eq_def]
          simp +decide only [List.dropWhile_cons, skipWs_print, if_true,
            if_false, reduceIte]
          simp [hv, htl]
      · -- parseObjTail round trip
        cases es with
        | nil =>
          rw [show printObjTail [] ++ rest = '}' :: rest from rfl,
            parseObjTail.eq_def]
          simp +decide [List.dropWhile_cons]
        | cons kv kvs =>
          obtain ⟨k, v⟩ := kv
          have hszv : jsize v ≤ m := by
            have h1 : jsizeEntries ((k, v) :: kvs) =
                jsize v + jsizeEntries kvs := rfl
            omega
          have hsks : jsizeEntries kvs + 1 ≤ m := by
            have h1 : jsizeEntries ((k, v) :: kvs) =
                jsize v + jsizeEntries kvs := rfl
            have h2 := jsize_pos v
            omega
          have hkey := parseKeyColon_print k
            (printJVal v ++ (printObjTail kvs ++ rest))
          rw [skipWs_print] at hkey
          have hv := IH1 m (by omega) v (printObjTail kvs ++ rest) hszv
            (noDigitHead_printObjTail kvs rest)
          have htl := IH3 m (by omega) kvs (acc ++ [(k, v)]) rest hsks
          rw [show printObjTail ((k, v) :: kvs) ++ rest =
            ',' :: ' ' :: (('"' :: (escapeChars k.data ++ ['"', ':', ' '])) ++
              (printJVal v ++ (printObjTail kvs ++ rest))) from by
                simp [printObjTail, printEntry], parseObjTail.eq_def]
          simp +decide only [List.dropWhile_cons, List.cons_append, if_true,
            if_false, reduceIte]
          rw [show ('"' :: ((escapeChars k.data ++ ['"', ':', ' ']) ++
              (printJVal v ++ (printObjTail kvs ++ rest)))) =
            (('"' :: (escapeChars k.data ++ ['"', ':', ' '])) ++
              (printJVal v ++ (printObjTail kvs ++ rest))) from rfl, hkey]
          simp [hv, htl]

/-- Top-level round trip: reading back a dumped value recovers it. -/
theorem json_loads_dumps (v : JVal) : json_loads (json_dumps v) = some v := by
  have h0 : (printJVal v).dropWhile isWsChar = printJVal v := by
    have := skipWs_print v []
    simpa using this
  have hsz : jsize v ≤ (printJVal v).length + 1 := by
    have := jsize_le_length v
    omega
  have h := (parse_print_aux ((printJVal v).length + 1)).1 v [] hsz noDigitHead_nil
  rw [List.append_nil] at h
  unfold json_loads json_dumps
  simp only [h0, h]
  simp

theorem isDigit_more {c : Char} (h : c.isDigit = true) :
    c ≠ 'N' ∧ c ≠ 'I' := by
  have hne : ∀ d : Char, d.isDigit = false → c ≠ d := by
    intro d hd hc
    subst hc
    rw [h] at hd
    cases hd
  exact ⟨hne _ (by decide), hne _ (by decide)⟩

theorem wfFrac_id {l : List Char} (h : noNumExt l) : wfFrac l = l := by
  cases l with
  | nil => rfl
  | cons c t =>
    have hc := (h c rfl).1
    simp [wfFrac, hc]

theorem wfExp_id {l : List Char} (h : noNumExt l) : wfExp l = l := by
  cases l with
  | nil => rfl
  | cons c t =>
    have hc1 := (h c rfl).2.1
    have hc2 := (h c rfl).2.2
    simp [wfExp, hc1, hc2]

theorem wfNum_ext {l r : List Char} (hc : wfIntCore l = some r)
    (h : noNumExt r) : wfNum l = some r := by
  simp only [wfNum, hc, wfFrac_id h, wfExp_id h]

theorem parseArrTail_noNumExt {n : Nat} {acc : List JVal} {l : List Char}
    {v : JVal} {r : List Char} (h : parseArrTail n acc l = some (v, r)) :
    noNumExt l := by
  cases n with
  | zero => simp [parseArrTail] at h
  | succ m =>
    intro c hc
    cases l with
    | nil => cases hc
    | cons d t =>
      simp only [List.head?_cons, Option.some.injEq] at hc
      subst hc
      refine ⟨?_, ?_, ?_⟩ <;> rintro rfl <;>
        simp +decide [parseArrTail, List.dropWhile_cons] at h

theorem parseObjTail_noNumExt {n : Nat} {acc : List (String × JVal)}
    {l : List Char} {v : JVal} {r : List Char}
    (h : parseObjTail n acc l = some (v, r)) : noNumExt l := by
  cases n with
  | zero => simp [parseObjTail] at h
  | succ m =>
    intro c hc
    cases l with
    | nil => cases hc
    | cons d t =>
      simp only [List.head?_cons, Option.some.injEq] at hc
      subst hc
      refine ⟨?_, ?_, ?_⟩ <;> rintro rfl <;>
        simp +decide [parseObjTail, List.dropWhile_cons] at h

/-- Whenever the fragment reader succeeds, the full-grammar recognizer
succeeds with the same unconsumed rest, provided the rest does not
start with a fraction or exponent head (which only the full reader
would absorb into the number); the tail conjuncts state the same for
the item and member loops, whose successful continuation guarantees the
side condition. -/
theorem wf_of_parse_aux (n : Nat) :
    (∀ l v r, parseJVal n l = some (v, r) → noNumExt r →
      wfVal n l = some r) ∧
    (∀ acc l v r, parseArrTail n acc l = some (v, r) →
      wfArrTail n l = some r) ∧
    (∀ acc l v r, parseObjTail n acc l = some (v, r) →
      wfObjTail n l = some r) := by
  induction n using Nat.strong_induction_on with
  | _ n ih =>
    match n with
    | 0 =>
      refine ⟨fun l v r h hne => ?_, fun acc l v r h => ?_,
        fun acc l v r h => ?_⟩ <;>
        simp [parseJVal, parseArrTail, parseObjTail] at h
    | m + 1 =>
      have IH1 := fun (k : Nat) (hk : k < m + 1) => (ih k hk).1
      have IH2 := fun (k : Nat) (hk : k < m + 1) => (ih k hk).2.1
      have IH3 := fun (k : Nat) (hk : k < m + 1) => (ih k hk).2.2
      refine ⟨fun l v r h hne => ?_, fun acc l v r h => ?_,
        fun acc l v r h => ?_⟩
      · cases l with
        | nil => simp [parseJVal] at h
        | cons c rest =>
          rw [parseJVal.eq_def] at h
          rw [wfVal.eq_def]
          by_cases hc1 : c = 'n'
          · subst hc1
            simp +decide only [reduceIte] at h ⊢
            rcases hdl : dropLit ['u', 'l', 'l'] rest with _ | r1 <;>
              rw [hdl] at h
            · cases h
            · simp only [Option.some.injEq, Prod.mk.injEq] at h
              rw [h.2]
          · by_cases hc2 : c = 't'
            · subst hc2
              simp +decide only [reduceIte] at h ⊢
              rcases hdl : dropLit ['r', 'u', 'e'] rest with _ | r1 <;>
                rw [hdl] at h
              · cases h
              · simp only [Option.some.injEq, Prod.mk.injEq] at h
                rw [h.2]
            · by_cases hc3 : c = 'f'
              · subst hc3
                simp +decide only [reduceIte] at h ⊢
                rcases hdl : dropLit ['a', 'l', 's', 'e'] rest with _ | r1 <;>
                  rw [hdl] at h
                · cases h
                · simp only [Option.some.injEq, Prod.mk.injEq] at h
                  rw [h.2]
              · by_cases hc4 : c = '"'
                · subst hc4
                  simp +decide only [reduceIte] at h ⊢
                  rcases hsb : parseStrBody rest with _ | ⟨cs, r1⟩ <;>
                    rw [hsb] at h
                  · cases h
                  · simp only [Option.some.injEq, Prod.mk.injEq] at h
                    rw [h.2]
                · by_cases hc5 : c = '['
                  · subst hc5
                    simp +decide only [reduceIte] at h ⊢
                    by_cases hh : (rest.dropWhile isWsChar).head? = some ']'
                    · rw [if_pos hh] at h
                      simp only [Option.some.injEq, Prod.mk.injEq] at h
                      rw [if_pos hh, h.2]
                    · rw [if_neg hh] at h
                      rw [if_neg hh]
                      rcases hp : parseJVal m (rest.dropWhile isWsChar)
                          with _ | ⟨v1, r3⟩ <;> rw [hp] at h
                      · cases h
                      · have hnn := parseArrTail_noNumExt h
                        have hwv := IH1 m (by omega) _ _ _ hp hnn
                        have hwt := IH2 m (by omega) _ _ _ _ h
                        rw [hwv]
                        exact hwt
                  · by_cases hc6 : c = '{'
                    · subst hc6
                      simp +decide only [reduceIte] at h ⊢
                      by_cases hh : (rest.dropWhile isWsChar).head? = some '}'
                      · rw [if_pos hh] at h
                        simp only [Option.some.injEq, Prod.mk.injEq] at h
                        rw [if_pos hh, h.2]
                      · rw [if_neg hh] at h
                        rw [if_neg hh]
                        rcases hk : parseKeyColon (rest.dropWhile isWsChar)
                            with _ | ⟨k1, r3⟩ <;> rw [hk] at h <;>
                          simp only [] at h
                        · cases h
                        · rcases hp : parseJVal m r3 with _ | ⟨v1, r4⟩ <;>
                            rw [hp] at h
                          · cases h
                          · have hnn := parseObjTail_noNumExt h
                            have hwv := IH1 m (by omega) _ _ _ hp hnn
                            have hwt := IH3 m (by omega) _ _ _ _ h
                            simp only []
                            rw [hwv]
                            exact hwt
                    · by_cases hc7 : c = '-'
                      · subst hc7
                        simp +decide only [reduceIte] at h ⊢
                        by_cases hh : rest.head? = some '0'
                        · rw [if_pos hh] at h
                          simp only [Option.some.injEq, Prod.mk.injEq] at h
                          cases rest with
                          | nil => cases hh
                          | cons d t =>
                            simp only [List.head?_cons, Option.some.injEq] at hh
                            subst hh
                            have ht : t = r := by simpa using h.2
                            subst ht
                            rw [if_neg (by simp +decide)]
                            exact wfNum_ext (by simp [wfIntCore]) hne
                        · rw [if_neg hh] at h
                          cases rest with
                          | nil => simp at h
                          | cons d t =>
                            by_cases hd : d.isDigit = true
                            · have hdz : d ≠ '0' := by
                                intro hq
                                subst hq
                                exact hh rfl
                              have hni := (isDigit_more hd).2
                              have e1 : (d :: t).takeWhile Char.isDigit =
                                  d :: t.takeWhile Char.isDigit := by
                                simp [List.takeWhile_cons, hd]
                              have e2 : (d :: t).dropWhile Char.isDigit =
                                  t.dropWhile Char.isDigit := by
                                simp [List.dropWhile_cons, hd]
                              rw [e1, e2] at h
                              simp only [List.isEmpty_cons, Bool.false_eq_true,
                                if_false, reduceIte, Option.some.injEq,
                                Prod.mk.injEq] at h
                              have ht : t.dropWhile Char.isDigit = r := h.2
                              subst ht
                              rw [if_neg (by simp [hni])]
                              exact wfNum_ext (by simp [wfIntCore, hd, hdz]) hne
                            · have e1 : (d :: t).takeWhile Char.isDigit = [] := by
                                simp [List.takeWhile_cons, hd]
                              rw [e1] at h
                              simp at h
                      · by_cases hc8 : c = '0'
                        · subst hc8
                          simp +decide only [reduceIte] at h ⊢
                          simp only [Option.some.injEq, Prod.mk.injEq] at h
                          have ht : rest = r := h.2
                          subst ht
                          exact wfNum_ext (by simp [wfIntCore]) hne
                        · by_cases hd : c.isDigit = true
                          · have hni := isDigit_more hd
                            simp only [hc1, hc2, hc3, hc4, hc5, hc6, hc7, hc8,
                              hd, if_false, if_true, reduceIte] at h
                            simp only [Option.some.injEq, Prod.mk.injEq] at h
                            have e2 : (c :: rest).dropWhile Char.isDigit =
                                rest.dropWhile Char.isDigit := by
                              simp [List.dropWhile_cons, hd]
                            rw [e2] at h
                            have ht : rest.dropWhile Char.isDigit = r := h.2
                            subst ht
                            simp only [hc1, hc2, hc3, hc4, hc5, hc6, hc7,
                              hni.1, hni.2, if_false, reduceIte]
                            exact wfNum_ext (by simp [wfIntCore, hd, hc8]) hne
                          · simp only [hc1, hc2, hc3, hc4, hc5, hc6, hc7, hc8,
                              hd, Bool.false_eq_true, if_false, reduceIte] at h
                            cases h
      · rcases hdw : l.dropWhile isWsChar with _ | ⟨c, t⟩
        · simp only [parseArrTail, hdw] at h
          cases h
        · simp only [parseArrTail, hdw] at h
          simp only [wfArrTail, hdw]
          by_cases hc : c = ']'
          · subst hc
            simp +decide only [reduceIte] at h ⊢
            simp only [Option.some.injEq, Prod.mk.injEq] at h
            rw [h.2]
          · by_cases hcc : c = ','
            · subst hcc
              simp +decide only [reduceIte] at h ⊢
              rcases hp : parseJVal m (t.dropWhile isWsChar)
                  with _ | ⟨v1, r2⟩ <;> rw [hp] at h
              · cases h
              · have hnn := parseArrTail_noNumExt h
                have hwv := IH1 m (by omega) _ _ _ hp hnn
                have hwt := IH2 m (by omega) _ _ _ _ h
                rw [hwv]
                exact hwt
            · simp only [hc, hcc, if_false, reduceIte] at h
              cases h
      · rcases hdw : l.dropWhile isWsChar with _ | ⟨c, t⟩
        · simp only [parseObjTail, hdw] at h
          cases h
        · simp only [parseObjTail, hdw] at h
          simp only [wfObjTail, hdw]
          by_cases hc : c = '}'
          · subst hc
            simp +decide only [reduceIte] at h ⊢
            simp only [Option.some.injEq, Prod.mk.injEq] at h
            rw [h.2]
          · by_cases hcc : c = ','
            · subst hcc
              simp +decide only [reduceIte] at h ⊢
              rcases hk : parseKeyColon (t.dropWhile isWsChar)
                  with _ | ⟨k1, r2⟩ <;> rw [hk] at h <;> simp only [] at h
              · cases h
              · rcases hp : parseJVal m r2 with _ | ⟨v1, r3⟩ <;> rw [hp] at h
                · cases h
                · have hnn := parseObjTail_noNumExt h
                  have hwv := IH1 m (by omega) _ _ _ hp hnn
                  have hwt := IH3 m (by omega) _ _ _ _ h
                  simp only []
                  rw [hwv]
                  exact hwt
            · simp only [hc, hcc, if_false, reduceIte] at h
              cases h

/-- A string the fragment reader accepts is well formed under the full
grammar: `json_loads` succeeding implies `jsonWf`. -/
theorem jsonWf_of_json_loads {s : String} {v : JVal}
    (h : json_loads s = some v) : jsonWf s = true := by
  simp only [json_loads] at h
  simp only [jsonWf]
  rcases hp : parseJVal ((s.data.dropWhile isWsChar).length + 1)
      (s.data.dropWhile isWsChar) with _ | ⟨v1, r⟩ <;> rw [hp] at h <;>
    simp only [] at h
  · cases h
  · by_cases hr : r.dropWhile isWsChar = []
    · have hnn : noNumExt r := by
        intro c hc
        cases r with
        | nil => cases hc
        | cons d t =>
          simp only [List.head?_cons, Option.some.injEq] at hc
          subst hc
          refine ⟨?_, ?_, ?_⟩ <;> rintro rfl <;>
            simp +decide [List.dropWhile_cons] at hr
      have hwf := (wf_of_parse_aux ((s.data.dropWhile isWsChar).length + 1)).1
        _ _ _ hp hnn
      rw [hwf]
      simp [hr]
    · rw [if_neg hr] at h
      cases h

theorem runStmts_mono {x : String} (names : List String)
    (stmts : List SchemaStmt) (h : x ∈ names) :
    x ∈ (runStmts names stmts).1 := by
  induction stmts generalizing names with
  | nil => exact h
  | cons st rest ih =>
    simp only [runStmts]
    apply ih
    unfold applyStmt
    split_ifs with h1 h2
    · exact h
    · exact h
    · exact List.mem_append_left _ h

theorem runStmts_mem (names : List String) (stmts : List SchemaStmt) :
    ∀ st ∈ stmts, st.name ∈ (runStmts names stmts).1 := by
  induction stmts generalizing names with
  | nil => intro st h; cases h
  | cons s rest ih =>
    intro st hst
    rcases List.mem_cons.1 hst with rfl | hst
    · simp only [runStmts]
      apply runStmts_mono
      unfold applyStmt
      split_ifs with h1 h2
      · exact h1
      · exact h1
      · exact List.mem_append_right _ (List.mem_singleton.2 rfl)
    · exact ih _ st hst

theorem runStmts_noop (names : List String) (stmts : List SchemaStmt)
    (h : ∀ st ∈ stmts, st.name ∈ names ∧ st.ifNotExists = true) :
    runStmts names stmts = (names, []) := by
  induction stmts with
  | nil => rfl
  | cons st rest ih =>
    obtain ⟨h1, h2⟩ := h st (List.mem_cons_self ..)
    simp only [runStmts, applyStmt, h1, h2, if_true]
    rw [ih (fun s hs => h s (List.mem_cons_of_mem _ hs))]
    rfl

theorem runStmts_nodup (names : List String) (stmts : List SchemaStmt)
    (h : names.Nodup) : (runStmts names stmts).1.Nodup := by
  induction stmts generalizing names with
  | nil => exact h
  | cons st rest ih =>
    simp only [runStmts]
    apply ih
    unfold applyStmt
    split_ifs with h1 h2
    · exact h
    · exact h
    · simp [List.nodup_append, h, h1]

/-! ## Soundness of the path search (for claim C8) -/
theorem isWalkB_append (s : DBState) (st : List (String × String))
    (a c mid : String) (t : String)
    (h1 : isWalkB s a st c = true) (h2 : edgeConnB s c mid t = true) :
    isWalkB s a (st ++ [(t, mid)]) mid = true := by
  induction st generalizing a with
  | nil =>
    simp only [isWalkB, beq_iff_eq] at h1
    subst h1
    simp [isWalkB, h2]
  | cons p rest ih =>
    obtain ⟨t', x⟩ := p
    simp only [isWalkB, Bool.and_eq_true] at h1
    simp only [List.cons_append, isWalkB, Bool.and_eq_true]
    exact ⟨h1.1, ih x h1.2⟩

theorem expandFrom_invariant (s : DBState) (a cur : String)
    (steps : List (String × String)) (hcur : isWalkB s a steps cur = true) :
    ∀ q ∈ expandFrom s cur steps, isWalkB s a q.2 q.1 = true := by
  intro q hq
  unfold expandFrom at hq
  rw [List.mem_flatMap] at hq
  obtain ⟨ed, hed, hq⟩ := hq
  rw [List.mem_append] at hq
  have hconn : ∀ x y : String, (ed.src_id = x ∧ ed.tgt_id = y) ∨
      (ed.src_id = y ∧ ed.tgt_id = x) → edgeConnB s x y ed.rel_type = true := by
    intro x y hxy
    unfold edgeConnB
    rw [List.any_eq_true]
    refine ⟨ed, hed, ?_⟩
    rcases hxy with ⟨hx, hy⟩ | ⟨hx, hy⟩ <;> simp [hx, hy]
  rcases hq with hq | hq
  · by_cases hsrc : ed.src_id = cur
    · rw [if_pos hsrc, List.mem_singleton] at hq
      subst hq
      exact isWalkB_append s steps a cur ed.tgt_id ed.rel_type hcur
        (hconn cur ed.tgt_id (Or.inl ⟨hsrc, rfl⟩))
    · rw [if_neg hsrc] at hq
      cases hq
  · by_cases htgt : ed.tgt_id = cur
    · rw [if_pos htgt, List.mem_singleton] at hq
      subst hq
      exact isWalkB_append s steps a cur ed.src_id ed.rel_type hcur
        (hconn cur ed.src_id (Or.inr ⟨rfl, htgt⟩))
    · rw [if_neg htgt] at hq
      cases hq

theorem bfsAux_sound (s : DBState) (a tgt : String) :
    ∀ fuel visited queue,
      (∀ q ∈ queue, isWalkB s a q.2 q.1 = true) →
      ∀ steps, bfsAux s tgt fuel visited queue = some steps →
      isWalkB s a steps tgt = true := by
  intro fuel
  induction fuel with
  | zero =>
    intro visited queue _ steps h
    simp [bfsAux] at h
  | succ f ih =>
    intro visited queue hq steps h
    cases queue with
    | nil => simp [bfsAux] at h
    | cons q rest =>
      obtain ⟨cur, st⟩ := q
      rw [bfsAux] at h
      by_cases hc : cur = tgt
      · rw [if_pos hc, Option.some.injEq] at h
        subst h
        have := hq (cur, st) (List.mem_cons_self ..)
        rw [← hc]
        exact this
      · rw [if_neg hc] at h
        by_cases hv : cur ∈ visited
        · rw [if_pos hv] at h
          exact ih visited rest
            (fun q hq' => hq q (List.mem_cons_of_mem _ hq')) steps h
        · rw [if_neg hv] at h
          refine ih (cur :: visited) (rest ++ expandFrom s cur st) ?_ steps h
          intro q hq'
          rcases List.mem_append.1 hq' with hmem | hmem
          · exact hq q (List.mem_cons_of_mem _ hmem)
          · exact expandFrom_invariant s a cur st
              (hq (cur, st) (List.mem_cons_self ..)) q hmem

/-! ## The claims -/
/-- C1: calling `create_entity` twice with entities sharing one `id`
succeeds on the first call (storing the node) and fails on the second,
which neither duplicates the node nor mutates the stored state at all. -/
theorem claim_C1_create_entity_duplicate (s : DBState) (e1 e2 : BaseEntity)
    (hfresh : matchEntityId s e1.id = [])
    (hid : e2.id = e1.id) :
    create_entity s e1 =
      (true, { s with nodes := s.nodes ++
        [{ labels := ["Entity", e1.type.value], props := entityDict e1 }] }) ∧
    create_entity (create_entity s e1).2 e2 = (false, (create_entity s e1).2) := by
  have hfirst : create_entity s e1 =
      (true, { s with nodes := s.nodes ++
        [{ labels := ["Entity", e1.type.value], props := entityDict e1 }] }) := by
    unfold create_entity
    rw [hfresh]
    rfl
  refine ⟨hfirst, ?_⟩
  rw [hfirst]
  unfold create_entity
  have hm : matchEntityId { s with nodes := s.nodes ++
      [{ labels := ["Entity", e1.type.value], props := entityDict e1 }] } e2.id =
      matchEntityId s e2.id ++
        [{ labels := ["Entity", e1.type.value], props := entityDict e1 }] := by
    unfold matchEntityId
    rw [List.filter_append]
    congr 1
    simp [entityDict, hid, List.lookup]
  rw [hm, hid, hfresh]
  rfl

/-- C1 witness: the duplicate-id scenario at a concrete store and pair of
entities. -/
theorem claim_C1_witness :
    create_entity { nodes := [], edges := [] } cex1_e1 =
      (true, { nodes := [{ labels := ["Entity", "NetworkSwitch"],
                           props := entityDict cex1_e1 }], edges := [] }) ∧
    create_entity (create_entity { nodes := [], edges := [] } cex1_e1).2 cex1_e2 =
      (false, (create_entity { nodes := [], edges := [] } cex1_e1).2) :=
  claim_C1_create_entity_duplicate { nodes := [], edges := [] } cex1_e1 cex1_e2
    (by decide) rfl

/-- C2: when either endpoint id of a relationship matches no stored
`Entity` node, `create_relationship` returns false and the store is
unchanged — no dangling edge, no placeholder node, no partial write. -/
theorem claim_C2_missing_endpoint (s : DBState) (r : Relationship)
    (h : matchEntityId s r.source_id = [] ∨ matchEntityId s r.target_id = []) :
    create_relationship s r = (false, s) := by
  unfold create_relationship
  rcases h with h | h <;> rw [h] <;> simp

/-- C2 witness: a relationship written into an empty store. -/
theorem claim_C2_witness :
    create_relationship { nodes := [], edges := [] } cex2_rel =
      (false, { nodes := [], edges := [] }) :=
  claim_C2_missing_endpoint { nodes := [], edges := [] } cex2_rel
    (Or.inl (by decide))

/-- C3 counterexample: searching for "prod" without a kind filter misses
the stored server whose hostname contains "prod" (the code compares only
`name`), while the spec's three-field reading returns it. -/
theorem claim_C3_counterexample :
    search_entities cex3_state "prod" Option.none = [] ∧
    searchEntitiesSpecUnfiltered cex3_state "prod" = [cex3_server] := by
  constructor <;> decide

/-- C3 (amended): the unfiltered search returns exactly the `Entity`
nodes whose `name` contains the term as a substring — `hostname` and
`ip_address` are not consulted. -/
theorem claim_C3_amended (s : DBState) (term : String) (n : Node) :
    n ∈ search_entities s term Option.none ↔
      n ∈ s.nodes ∧ "Entity" ∈ n.labels ∧ propContains n "name" term = true := by
  unfold search_entities truthyList
  simp [List.mem_filter, and_assoc]

/-- C4 counterexample: on a store with one `HOSTS` relationship, no entry
of the returned statistics carries a per-relationship-kind count map. -/
theorem claim_C4_counterexample :
    statsHaveRelationshipKindCounts cex4_state = false := by
  decide

/-- C4 (amended): `get_statistics` returns exactly three aggregates — the
total `Entity` count, the total relationship count, and the per-kind
entity counts — and no per-kind relationship counts. -/
theorem claim_C4_amended (s : DBState) :
    List.lookup "total_entities" (get_statistics s) =
      some (.nat (countLabel s "Entity")) ∧
    List.lookup "total_relationships" (get_statistics s) =
      some (.nat s.edges.length) ∧
    List.lookup "entity_counts" (get_statistics s) =
      some (.map (EntityType.all.map fun t => (t.value, countLabel s t.value))) ∧
    (get_statistics s).map Prod.fst =
      ["total_entities", "total_relationships", "entity_counts"] := by
  refine ⟨?_, ?_, ?_, rfl⟩ <;> simp +decide [get_statistics, List.lookup]

/-- C5 counterexample: constructing a `VLAN` whose `vlan_id` is the
string "20" does not fail — pydantic v2 lax validation silently coerces
the string into the integer 20. -/
theorem claim_C5_counterexample :
    VLAN.construct cex5_kwargs =
      .ok ⟨"vlan-10", "VLAN-Production", 20, Option.none, Option.none,
        Option.none⟩ := by
  rfl

/-- C5 (amended): a missing required field (a `Server` without
`hostname`, a `VLAN` without `vlan_id`) is rejected, and a value that
lax mode cannot coerce (a string for `vlan_id` that survives none of
pydantic-core's integer cleanings, or `None` for `vlan_id`) is
rejected; but integer-formatted strings are silently coerced rather
than rejected (and so are booleans). -/
theorem claim_C5_amended :
    (∀ kwargs, List.lookup "hostname" kwargs = Option.none →
      constructionSucceeds (Server.construct kwargs) = false) ∧
    (∀ kwargs, List.lookup "vlan_id" kwargs = Option.none →
      constructionSucceeds (VLAN.construct kwargs) = false) ∧
    (∀ kwargs s, List.lookup "vlan_id" kwargs = some (.str s) →
      parseIntStr s = Option.none →
      constructionSucceeds (VLAN.construct kwargs) = false) ∧
    (∀ kwargs, List.lookup "vlan_id" kwargs = some .null →
      constructionSucceeds (VLAN.construct kwargs) = false) := by
  refine ⟨fun kwargs h => ?_, fun kwargs h => ?_, fun kwargs s hs hp => ?_,
    fun kwargs h => ?_⟩
  · have h3 : validateStr (List.lookup "hostname" kwargs) =
        .error "Field required" := by
      rw [h]
      rfl
    cases h1 : validateStr (List.lookup "id" kwargs) with
    | error e => simp [Server.construct, h1, constructionSucceeds, bind, Except.bind]
    | ok a =>
      cases h2 : validateStr (List.lookup "name" kwargs) with
      | error e =>
        simp [Server.construct, h1, h2, constructionSucceeds, bind, Except.bind]
      | ok b =>
        simp [Server.construct, h1, h2, h3, constructionSucceeds, bind, Except.bind]
  · have h3 : validateInt (List.lookup "vlan_id" kwargs) =
        .error "Field required" := by
      rw [h]
      rfl
    cases h1 : validateStr (List.lookup "id" kwargs) with
    | error e => simp [VLAN.construct, h1, constructionSucceeds, bind, Except.bind]
    | ok a =>
      cases h2 : validateStr (List.lookup "name" kwargs) with
      | error e =>
        simp [VLAN.construct, h1, h2, constructionSucceeds, bind, Except.bind]
      | ok b =>
        simp [VLAN.construct, h1, h2, h3, constructionSucceeds, bind, Except.bind]
  · have h3 : validateInt (List.lookup "vlan_id" kwargs) =
        .error "Input should be a valid integer" := by
      rw [hs]
      simp [validateInt, hp]
    cases h1 : validateStr (List.lookup "id" kwargs) with
    | error e => simp [VLAN.construct, h1, constructionSucceeds, bind, Except.bind]
    | ok a =>
      cases h2 : validateStr (List.lookup "name" kwargs) with
      | error e =>
        simp [VLAN.construct, h1, h2, constructionSucceeds, bind, Except.bind]
      | ok b =>
        simp [VLAN.construct, h1, h2, h3, constructionSucceeds, bind, Except.bind]
  · have h3 : validateInt (List.lookup "vlan_id" kwargs) =
        .error "Input should be a valid integer" := by
      rw [h]
      rfl
    cases h1 : validateStr (List.lookup "id" kwargs) with
    | error e => simp [VLAN.construct, h1, constructionSucceeds, bind, Except.bind]
    | ok a =>
      cases h2 : validateStr (List.lookup "name" kwargs) with
      | error e =>
        simp [VLAN.construct, h1, h2, constructionSucceeds, bind, Except.bind]
      | ok b =>
        simp [VLAN.construct, h1, h2, h3, constructionSucceeds, bind, Except.bind]

/-- C5 witness: concrete rejected constructions of each amended clause. -/
theorem claim_C5_witness :
    constructionSucceeds (Server.construct
      [("id", PyVal.str "srv-9"), ("name", PyVal.str "S9")]) = false ∧
    constructionSucceeds (VLAN.construct
      [("id", PyVal.str "v-9"), ("name", PyVal.str "V9")]) = false ∧
    constructionSucceeds (VLAN.construct
      [("id", PyVal.str "v-9"), ("name", PyVal.str "V9"),
       ("vlan_id", PyVal.str "abc")]) = false ∧
    constructionSucceeds (VLAN.construct
      [("id", PyVal.str "v-9"), ("name", PyVal.str "V9"),
       ("vlan_id", PyVal.null)]) = false :=
  ⟨claim_C5_amended.1 _ (by decide), claim_C5_amended.2.1 _ (by decide),
   claim_C5_amended.2.2.1 _ "abc" (by decide) (by decide),
   claim_C5_amended.2.2.2 _ (by decide)⟩

/-- C6: storing a string-keyed map with `set_properties` and reading it
back with `get_properties` reproduces the map exactly — the
map → string → map round trip through `json.dumps`/`json.loads` is
lossless. -/
theorem claim_C6_roundtrip (e : BaseEntity)
    (properties : List (String × JVal)) :
    get_properties (set_properties e properties) = .obj properties := by
  unfold get_properties set_properties
  simp [json_loads_dumps]

/-- C7 counterexample: the stored string "42" is not a serialized map,
yet `get_properties` returns the parsed integer 42, not the empty map —
only strings that fail to parse produce the empty map. -/
theorem claim_C7_counterexample :
    json_loads "42" = some (JVal.int 42) ∧
    isEmptyMapJ (get_properties cex7_entity) = false := by
  constructor
  · rfl
  · rfl

/-- C7 (amended): for every stored string outside the grammar
`json.loads` accepts — that is, whenever `json.loads` raises
`json.JSONDecodeError` — each of the four read helpers returns the
empty map (and, being a total function of the stored state, propagates
no exception; CPython's recursion limit on deeply nested texts is the
one resource bound outside the embedding). -/
theorem claim_C7_amended :
    (∀ e : BaseEntity, jsonWf e.properties_json = false →
      get_properties e = .obj []) ∧
    (∀ p : KubernetesPod, jsonWf p.k8s_labels_json = false →
      p.get_k8s_labels = .obj []) ∧
    (∀ p : KubernetesPod, jsonWf p.annotations_json = false →
      p.get_annotations = .obj []) ∧
    (∀ c : Container, jsonWf c.environment_vars_json = false →
      c.get_environment_vars = .obj []) := by
  refine ⟨fun e h => ?_, fun p h => ?_, fun p h => ?_, fun c h => ?_⟩
  · unfold get_properties
    rcases hj : json_loads e.properties_json with _ | v
    · rfl
    · exact absurd (jsonWf_of_json_loads hj) (by simp [h])
  · unfold KubernetesPod.get_k8s_labels
    rcases hj : json_loads p.k8s_labels_json with _ | v
    · rfl
    · exact absurd (jsonWf_of_json_loads hj) (by simp [h])
  · unfold KubernetesPod.get_annotations
    rcases hj : json_loads p.annotations_json with _ | v
    · rfl
    · exact absurd (jsonWf_of_json_loads hj) (by simp [h])
  · unfold Container.get_environment_vars
    rcases hj : json_loads c.environment_vars_json with _ | v
    · rfl
    · exact absurd (jsonWf_of_json_loads hj) (by simp [h])

/-- C7 witness: each helper applied to the malformed stored string `{`. -/
theorem claim_C7_witness :
    get_properties { cex7_entity with properties_json := "\x7b" } = .obj [] ∧
    KubernetesPod.get_k8s_labels
      { id := "p", name := "p", k8s_labels_json := "\x7b",
        annotations_json := "\x7b\x7d" } = .obj [] ∧
    KubernetesPod.get_annotations
      { id := "p", name := "p", k8s_labels_json := "\x7b\x7d",
        annotations_json := "\x7b" } = .obj [] ∧
    Container.get_environment_vars
      { id := "c", name := "c", image := "nginx:latest",
        environment_vars_json := "\x7b" } = .obj [] :=
  ⟨claim_C7_amended.1 _ rfl, claim_C7_amended.2.1 _ rfl,
   claim_C7_amended.2.2.1 _ rfl, claim_C7_amended.2.2.2 _ rfl⟩

/-- C8: when no sequence of stored relationships connects the two ids,
`get_topology_path` returns the explicit empty result (the Python `[]`),
and — being a total function of the store — signals no error. -/
theorem claim_C8_no_path (s : DBState) (a b : String)
    (h : ∀ steps, isWalkB s a steps b = false) :
    get_topology_path s a b = .empty := by
  unfold get_topology_path
  split_ifs with h1
  · rfl
  · cases hb : bfsAux s b (bfsFuel s) [] [(a, [])] with
    | none => rfl
    | some steps =>
      exfalso
      have hw := bfsAux_sound s a b (bfsFuel s) [] [(a, [])]
        (by
          intro q hq
          rw [List.mem_singleton] at hq
          subst hq
          simp [isWalkB])
        steps hb
      rw [h steps] at hw
      cases hw

/-- C8 witness: two stored but unconnected entities. -/
theorem claim_C8_witness : get_topology_path cex8_state "a" "b" = .empty :=
  claim_C8_no_path cex8_state "a" "b"
    (by
      intro steps
      cases steps with
      | nil => rfl
      | cons p rest =>
        obtain ⟨t, mid⟩ := p
        simp [isWalkB, edgeConnB, cex8_state])

/-- C9: running schema setup a second time changes nothing — the second
run returns the same schema state with no warnings (and, every statement
being wrapped in its own handler, no error terminates the run) — and the
setup never duplicates a constraint or index name. -/
theorem claim_C9_schema_idempotent (sc : SchemaState)
    (h1 : sc.constraints.Nodup) (h2 : sc.indexes.Nodup) :
    setup_constraints_and_indexes (setup_constraints_and_indexes sc).1 =
      ((setup_constraints_and_indexes sc).1, []) ∧
    (setup_constraints_and_indexes sc).1.constraints.Nodup ∧
    (setup_constraints_and_indexes sc).1.indexes.Nodup := by
  have hcall : ∀ st ∈ constraintStmts, st.ifNotExists = true := by decide
  have hiall : ∀ st ∈ indexStmts, st.ifNotExists = true := by decide
  rcases hrc : runStmts sc.constraints constraintStmts with ⟨c1, w1⟩
  rcases hri : runStmts sc.indexes indexStmts with ⟨i1, w2⟩
  have hs1 : setup_constraints_and_indexes sc = (⟨c1, i1⟩, w1 ++ w2) := by
    unfold setup_constraints_and_indexes
    rw [hrc, hri]
  have hmemc : ∀ st ∈ constraintStmts, st.name ∈ c1 := by
    intro st hst
    have := runStmts_mem sc.constraints constraintStmts st hst
    rw [hrc] at this
    exact this
  have hmemi : ∀ st ∈ indexStmts, st.name ∈ i1 := by
    intro st hst
    have := runStmts_mem sc.indexes indexStmts st hst
    rw [hri] at this
    exact this
  have hnodc : c1.Nodup := by
    have := runStmts_nodup sc.constraints constraintStmts h1
    rw [hrc] at this
    exact this
  have hnodi : i1.Nodup := by
    have := runStmts_nodup sc.indexes indexStmts h2
    rw [hri] at this
    exact this
  refine ⟨?_, by rw [hs1]; exact hnodc, by rw [hs1]; exact hnodi⟩
  rw [hs1]
  show setup_constraints_and_indexes ⟨c1, i1⟩ = (⟨c1, i1⟩, [])
  unfold setup_constraints_and_indexes
  rw [runStmts_noop c1 constraintStmts (fun st hst => ⟨hmemc st hst, hcall st hst⟩),
    runStmts_noop i1 indexStmts (fun st hst => ⟨hmemi st hst, hiall st hst⟩)]
  rfl

/-- C9 witness: schema setup run twice against an initially empty store. -/
theorem claim_C9_witness :
    setup_constraints_and_indexes
      (setup_constraints_and_indexes { constraints := [], indexes := [] }).1 =
      ((setup_constraints_and_indexes { constraints := [], indexes := [] }).1,
        []) ∧
    (setup_constraints_and_indexes
      { constraints := [], indexes := [] }).1.constraints.Nodup ∧
    (setup_constraints_and_indexes
      { constraints := [], indexes := [] }).1.indexes.Nodup :=
  claim_C9_schema_idempotent { constraints := [], indexes := [] }
    (by decide) (by decide)

/-- C10: an empty relationship-kind filter is falsy in Python, so
`get_entity_neighbors` with `[]` behaves exactly like the unfiltered
call, returning every neighbor row rather than none. -/
theorem claim_C10_empty_filter (s : DBState) (eid : String) :
    get_entity_neighbors s eid (some []) =
      get_entity_neighbors s eid Option.none ∧
    get_entity_neighbors s eid (some []) = neighborRows s eid := by
  unfold get_entity_neighbors truthyList
  simp

end NetInfraKG

